import Mathlib

/-!
# lidar-backend: ingestion and aggregation

A shallow embedding of `internal/domain/lidardb/model.go`,
`internal/services/licelfile/service.go` and
`internal/repository/licelfile/licelrepo.go`, followed by theorems about
`AverageMeasurements`, `AddExperiment`, `AddMeasurement` and
`CreateProcessingTask`.

Conventions of the embedding.

* A Go call returning `(v, err)` is a value of `Except Fault _`: `.ok v` is
  `(v, nil)`, `.error (.err msg)` is `(nil, err)`, and
  `.error .indexOutOfRange` is the run-time abort of an out-of-range index.
* A Go pointer result that may be `nil` is an `Option`.
* `time.Now()` and `bson.NewObjectID()` read the environment; the value they
  yield at a call is an explicit argument (`now`, `newID`).
* The elements of a `[]*Measurement` are distinct records with distinct,
  non-nil `Data` (as `cursor.All` decodes them), so a measurement is a value.
  `result.Profiles = measurement.Data.Profiles` makes the result share the
  backing arrays of that measurement; the writes through `result.Profiles`
  are therefore threaded explicitly through the loop state, and every input
  is read with the value it had before the call.
* Logging is not modelled.
-/

namespace Lidar

/-! ## Values of the environment -/

/-- An instant of `time.Time`, as a signed offset from the zero value of
`time.Time` (instants before the zero value are negative). -/
abbrev Time := Int

/-- The zero value of `time.Time` (`var stopTime time.Time`). -/
def zeroTime : Time := 0

/-- Go `t.Before(u)`. -/
def Before (t u : Time) : Bool := decide (t < u)

/-- Go `t.After(u)`. -/
def After (t u : Time) : Bool := decide (u < t)

/-- A `bson.ObjectID`. -/
abbrev ObjectID := Nat

/-- Outcome of a call other than a normal return with a nil error. -/
inductive Fault where
  | err (msg : String)
  | indexOutOfRange
  deriving DecidableEq, Repr

/-! ## Data model (`model.go`) -/

/-- Modelled from the spec: the declaration of `licelformat.LicelProfile`
(package `licelformat` is outside the repository). One channel profile: its
shot count and its ordered sequence of samples, the two fields that
`AverageMeasurements` reads and writes. Shot counts are unbounded integers. A
sample is the exact integer value it holds; `AverageMeasurements` adds samples
exactly, and `AverageMeasurementsWith` takes their addition as a parameter,
so that the rounded sums of floating point can be stated. -/
structure LicelProfile where
  NShots : Int
  Data : List Int
  deriving DecidableEq, Repr

/-- Modelled from the spec: the declaration of `licelformat.LicelFile`
(package `licelformat` is outside the repository). One decoded capture, with
the fields that `AverageMeasurements` names. -/
structure LicelFile where
  MeasurementSite : String
  MeasurementStartTime : Time
  MeasurementStopTime : Time
  Laser1NShots : Int
  Laser1Freq : Int
  Laser2NShots : Int
  Laser2Freq : Int
  Laser3NShots : Int
  Laser3Freq : Int
  Profiles : List LicelProfile
  deriving DecidableEq, Repr

/-- The zero value `licelformat.LicelFile{}`. -/
def zeroLicelFile : LicelFile :=
  { MeasurementSite := "", MeasurementStartTime := zeroTime, MeasurementStopTime := zeroTime,
    Laser1NShots := 0, Laser1Freq := 0, Laser2NShots := 0, Laser2Freq := 0,
    Laser3NShots := 0, Laser3Freq := 0, Profiles := [] }

structure Experiment where
  ID : ObjectID
  StartTime : Time
  Title : String
  Comments : String
  deriving DecidableEq, Repr

structure Measurement where
  ID : ObjectID
  ExperimentID : ObjectID
  Data : LicelFile
  deriving DecidableEq, Repr

structure ProcessingTask where
  ID : ObjectID
  ExperimentID : ObjectID
  MeasurementIDs : List ObjectID
  AveragedData : LicelFile
  deriving DecidableEq, Repr

/-- `NewExperiment`; `newID` is the value of `bson.NewObjectID()`. -/
def NewExperiment (newID : ObjectID) (startTime : Time) (title comments : String) : Experiment :=
  { ID := newID, StartTime := startTime, Title := title, Comments := comments }

/-- `NewMeasurement`; `newID` is the value of `bson.NewObjectID()`. -/
def NewMeasurement (newID : ObjectID) (experimentID : ObjectID) (data : LicelFile) : Measurement :=
  { ID := newID, ExperimentID := experimentID, Data := data }

/-- `NewProcessingTask`; `newID` is the value of `bson.NewObjectID()`. The
composite literal names `ID`, `ExperimentID` and `AveragedData` only, so
`MeasurementIDs` is the nil slice. -/
def NewProcessingTask (newID : ObjectID) (experimentID : ObjectID) (data : LicelFile) :
    ProcessingTask :=
  { ID := newID, ExperimentID := experimentID, MeasurementIDs := [], AveragedData := data }

/-! ## `AverageMeasurements` -/

/-- The inner loop `for j := range measurement.Data.Profiles[i].Data`:
`result.Profiles[i].Data[j] += measurement.Data.Profiles[i].Data[j]`.
The first argument is the result's sample array, the second the
measurement's. `none` is the abort of `result.Profiles[i].Data[j]` with `j`
out of range. -/
def addData : List Int → List Int → Option (List Int)
  | r, [] => some r
  | [], _ :: _ => none
  | x :: r, y :: d =>
    match addData r d with
    | some r' => some ((x + y) :: r')
    | none => none

/-- The loop `for i := range result.Profiles`: adds the shot count and the
samples of channel `i` of the measurement to channel `i` of the result.
`none` is an abort: of `measurement.Data.Profiles[i]` with `i` out of range,
or of the inner loop. -/
def addProfiles : List LicelProfile → List LicelProfile → Option (List LicelProfile)
  | [], _ => some []
  | _ :: _, [] => none
  | r :: rs, p :: ps =>
    match addData r.Data p.Data with
    | none => none
    | some d =>
      match addProfiles rs ps with
      | none => none
      | some rs' => some ({ NShots := r.NShots + p.NShots, Data := d } :: rs')

/-- The variables of `AverageMeasurements` that live across iterations. -/
structure AvgState where
  result : LicelFile
  startTime : Time
  stopTime : Time
  deriving DecidableEq, Repr

/-- One iteration of `for _, measurement := range measurements`. -/
def averageStep (st : AvgState) (measurement : Measurement) : Except Fault AvgState :=
  let startTime :=
    if Before measurement.Data.MeasurementStartTime st.startTime then
      measurement.Data.MeasurementStartTime
    else st.startTime
  let stopTime :=
    if After measurement.Data.MeasurementStopTime st.stopTime then
      measurement.Data.MeasurementStopTime
    else st.stopTime
  if st.result.Profiles.length = 0 then
    .ok { result :=
            { st.result with
              Profiles := measurement.Data.Profiles
              MeasurementSite := measurement.Data.MeasurementSite
              Laser1NShots := measurement.Data.Laser1NShots
              Laser1Freq := measurement.Data.Laser1Freq
              Laser2NShots := measurement.Data.Laser2NShots
              Laser2Freq := measurement.Data.Laser2Freq
              Laser3NShots := measurement.Data.Laser3NShots
              Laser3Freq := measurement.Data.Laser3Freq },
          startTime := startTime, stopTime := stopTime }
  else
    match addProfiles st.result.Profiles measurement.Data.Profiles with
    | none => .error .indexOutOfRange
    | some profiles =>
      .ok { result :=
              { st.result with
                Laser1NShots := st.result.Laser1NShots + measurement.Data.Laser1NShots
                Laser2NShots := st.result.Laser2NShots + measurement.Data.Laser2NShots
                Laser3NShots := st.result.Laser3NShots + measurement.Data.Laser3NShots
                Profiles := profiles },
            startTime := startTime, stopTime := stopTime }

/-- The loop `for _, measurement := range measurements`, in input order. -/
def averageLoop : AvgState → List Measurement → Except Fault AvgState
  | st, [] => .ok st
  | st, m :: ms =>
    match averageStep st m with
    | .ok st' => averageLoop st' ms
    | .error f => .error f

/-- `AverageMeasurements`; `now` is the value of `time.Now()` at the call.
The only `return` is `return &result, nil`. -/
def AverageMeasurements (now : Time) (measurements : List Measurement) : Except Fault LicelFile :=
  match averageLoop { result := zeroLicelFile, startTime := now, stopTime := zeroTime }
      measurements with
  | .ok st =>
    .ok { st.result with MeasurementStartTime := st.startTime, MeasurementStopTime := st.stopTime }
  | .error f => .error f

/-! ## Reading a list of channel profiles -/

/-- The profile lengths of the channels, in channel order. -/
def shapeOf (ps : List LicelProfile) : List Nat := ps.map fun p => p.Data.length

/-- `Profiles[i].NShots`, and `0` when there is no channel `i`. -/
def nshotsAt (ps : List LicelProfile) (i : Nat) : Int :=
  match ps[i]? with
  | some p => p.NShots
  | none => 0

/-- `Profiles[i].Data[j]`, and `0` when there is no channel `i` or no sample `j`. -/
def sampleAt (ps : List LicelProfile) (i j : Nat) : Int :=
  match ps[i]? with
  | some p => p.Data.getD j 0
  | none => 0

/-- Whether adding the profiles `ps` of a measurement to a result whose
channels have the lengths `shape` keeps every index in range: the measurement
has a channel for every channel of the result, and none of these is longer
than the result's. -/
def fits : List Nat → List LicelProfile → Bool
  | [], _ => true
  | _ :: _, [] => false
  | n :: ns, p :: ps => decide (p.Data.length ≤ n) && fits ns ps

/-- Whether the loop over `ms`, entered with a result whose channels have the
lengths `shape`, keeps every index in range. While the result has no channel
it takes the profiles of the next measurement. -/
def inRange : List Nat → List Measurement → Bool
  | _, [] => true
  | [], m :: ms => inRange (shapeOf m.Data.Profiles) ms
  | n :: ns, m :: ms => fits (n :: ns) m.Data.Profiles && inRange (n :: ns) ms

/-! ## `AverageMeasurements` with the addition of samples as a parameter

The statement `result.Profiles[i].Data[j] += measurement.Data.Profiles[i].Data[j]`
adds two samples in the arithmetic of the sample type, which `licelformat`
declares outside the repository. The definitions below repeat the loops of
`AverageMeasurements` with that addition as the parameter `add`; shot counts
are integers and are added exactly. With exact addition they are the
definitions above; with `addFloat64` a sample is an integer-valued `float64`
and every sum is rounded. -/

/-- The number of halvings that bring `a` below `2 ^ 53`, the size of the
significand of a `float64`; `fuel` bounds the search. -/
def excessBits : Nat → Nat → Nat
  | 0, _ => 0
  | fuel + 1, a => if a < 2 ^ 53 then 0 else excessBits fuel (a / 2) + 1

/-- Modelled from the spec: the rounding of a sum of samples, the spec placing
the samples in floating point while their type is declared outside the
repository. The `float64` nearest to the exact integer `n`, ties going to the
even significand: an integer below `2 ^ 53` in magnitude is kept, a larger
one keeps its 53 leading bits. Covers magnitudes below `2 ^ 1024`, where a
`float64` is finite. -/
def roundFloat64 (n : Int) : Int :=
  let a := n.natAbs
  let e := excessBits 1024 a
  let q := a / 2 ^ e
  let rem := a % 2 ^ e
  let q' := if 2 ^ e < 2 * rem ∨ (2 * rem = 2 ^ e ∧ q % 2 = 1) then q + 1 else q
  Int.sign n * ((q' * 2 ^ e : Nat) : Int)

/-- Modelled from the spec: `x + y` on two integer-valued `float64` samples,
the exact sum rounded to the nearest `float64`. -/
def addFloat64 (x y : Int) : Int := roundFloat64 (x + y)

/-- The inner loop over the samples of one channel, as `addData`, with the
addition of two samples as a parameter. -/
def addDataWith (add : Int → Int → Int) : List Int → List Int → Option (List Int)
  | r, [] => some r
  | [], _ :: _ => none
  | x :: r, y :: d =>
    match addDataWith add r d with
    | some r' => some (add x y :: r')
    | none => none

/-- The loop over the channels, as `addProfiles`, with the addition of two
samples as a parameter. -/
def addProfilesWith (add : Int → Int → Int) :
    List LicelProfile → List LicelProfile → Option (List LicelProfile)
  | [], _ => some []
  | _ :: _, [] => none
  | r :: rs, p :: ps =>
    match addDataWith add r.Data p.Data with
    | none => none
    | some d =>
      match addProfilesWith add rs ps with
      | none => none
      | some rs' => some ({ NShots := r.NShots + p.NShots, Data := d } :: rs')

/-- One iteration over the measurements, as `averageStep`, with the addition
of two samples as a parameter. -/
def averageStepWith (add : Int → Int → Int) (st : AvgState) (measurement : Measurement) :
    Except Fault AvgState :=
  let startTime :=
    if Before measurement.Data.MeasurementStartTime st.startTime then
      measurement.Data.MeasurementStartTime
    else st.startTime
  let stopTime :=
    if After measurement.Data.MeasurementStopTime st.stopTime then
      measurement.Data.MeasurementStopTime
    else st.stopTime
  if st.result.Profiles.length = 0 then
    .ok { result :=
            { st.result with
              Profiles := measurement.Data.Profiles
              MeasurementSite := measurement.Data.MeasurementSite
              Laser1NShots := measurement.Data.Laser1NShots
              Laser1Freq := measurement.Data.Laser1Freq
              Laser2NShots := measurement.Data.Laser2NShots
              Laser2Freq := measurement.Data.Laser2Freq
              Laser3NShots := measurement.Data.Laser3NShots
              Laser3Freq := measurement.Data.Laser3Freq },
          startTime := startTime, stopTime := stopTime }
  else
    match addProfilesWith add st.result.Profiles measurement.Data.Profiles with
    | none => .error .indexOutOfRange
    | some profiles =>
      .ok { result :=
              { st.result with
                Laser1NShots := st.result.Laser1NShots + measurement.Data.Laser1NShots
                Laser2NShots := st.result.Laser2NShots + measurement.Data.Laser2NShots
                Laser3NShots := st.result.Laser3NShots + measurement.Data.Laser3NShots
                Profiles := profiles },
            startTime := startTime, stopTime := stopTime }

/-- The loop over the measurements in input order, as `averageLoop`, with the
addition of two samples as a parameter. -/
def averageLoopWith (add : Int → Int → Int) : AvgState → List Measurement → Except Fault AvgState
  | st, [] => .ok st
  | st, m :: ms =>
    match averageStepWith add st m with
    | .ok st' => averageLoopWith add st' ms
    | .error f => .error f

/-- `AverageMeasurements` with the addition of two samples as a parameter;
`now` is the value of `time.Now()` at the call. -/
def AverageMeasurementsWith (add : Int → Int → Int) (now : Time)
    (measurements : List Measurement) : Except Fault LicelFile :=
  match averageLoopWith add { result := zeroLicelFile, startTime := now, stopTime := zeroTime }
      measurements with
  | .ok st =>
    .ok { st.result with MeasurementStartTime := st.startTime, MeasurementStopTime := st.stopTime }
  | .error f => .error f

/-! ## The store (`connection.go`) and the driver calls -/

/-- The three collections of `mongocon.Mongo`, each as the list of its
documents in insertion order. -/
structure Mongo where
  Experiments : List Experiment
  Measurements : List Measurement
  Processing : List ProcessingTask
  deriving DecidableEq, Repr

/-- An error of a driver call. -/
inductive DriverError where
  | errNoDocuments
  | duplicateKey
  | other (msg : String)
  deriving DecidableEq, Repr

/-- The text of `err.Error()`. -/
def DriverError.message : DriverError → String
  | .errNoDocuments => "mongo: no documents in result"
  | .duplicateKey => "E11000 duplicate key error"
  | .other msg => msg

/-- Modelled from the spec: `Collection.InsertOne` of the MongoDB driver,
which is outside the repository. The document is stored as given, with the
identifier its constructor set, after the documents already there; the insert
is refused when a stored document has the same `_id` (no other unique index
is created by `connection.go`). -/
def InsertOne {α : Type} (idOf : α → ObjectID) (coll : List α) (doc : α) :
    Except DriverError (List α) :=
  if coll.any (fun d => idOf d == idOf doc) then .error .duplicateKey
  else .ok (coll ++ [doc])

/-- Modelled from the spec: `Collection.FindOne(...).Decode` of the MongoDB
driver, which is outside the repository. Yields the first stored document
that satisfies the filter, and `ErrNoDocuments` when there is none. -/
def FindOne {α : Type} (coll : List α) (filter : α → Bool) : Except DriverError α :=
  match coll.find? filter with
  | some d => .ok d
  | none => .error .errNoDocuments

/-- Modelled from the spec: `Collection.Find` followed by `cursor.All` of the
MongoDB driver, which is outside the repository. Yields the stored documents
that satisfy the filter, in stored order. -/
def Find {α : Type} (coll : List α) (filter : α → Bool) : Except DriverError (List α) :=
  .ok (coll.filter filter)

/-! ## The repository (`licelrepo.go`) -/

/-- The interface `LicelRepo` of `service.go`, over a store state `σ`. Each
method takes the state before the call and yields its outcome with the state
after the call. -/
structure LicelRepo (σ : Type) where
  CreateExperiment : Time → String → String → σ → Except Fault (Option Experiment) × σ
  FindExperimentByTime : Time → σ → Except Fault (Option Experiment) × σ
  FindExperimentByTimeAndTitle : Time → String → σ → Except Fault (Option Experiment) × σ
  CreateMeasurement : ObjectID → Measurement → σ → Except Fault (Option Measurement) × σ
  FindMeasurement : ObjectID → Time → Time → σ → Except Fault (Option Measurement) × σ
  FindProcessingTask : ObjectID → σ → Except Fault (Option ProcessingTask) × σ
  FindAllMeasurementsByExpID : ObjectID → σ → Except Fault (List Measurement) × σ
  CreateProcessingTask :
    ObjectID → ProcessingTask → σ → Except Fault (Option ProcessingTask) × σ

namespace licelRepository

/-- `licelRepository.CreateExperiment`; `newID` is the value of
`bson.NewObjectID()` inside `NewExperiment`. -/
def CreateExperiment (newID : ObjectID) (startTime : Time) (title comments : String)
    (db : Mongo) : Except Fault (Option Experiment) × Mongo :=
  let exp := NewExperiment newID startTime title comments
  match InsertOne Experiment.ID db.Experiments exp with
  | .error .duplicateKey =>
    (.error (.err "эксперимент с таким временем начала уже существует"), db)
  | .error e => (.error (.err ("ошибка при сохранении эксперимента: " ++ e.message)), db)
  | .ok coll => (.ok (some exp), { db with Experiments := coll })

/-- `licelRepository.FindExperimentByTime`. -/
def FindExperimentByTime (startTime : Time) (db : Mongo) :
    Except Fault (Option Experiment) × Mongo :=
  match FindOne db.Experiments (fun e => decide (e.StartTime = startTime)) with
  | .error .errNoDocuments => (.ok none, db)
  | .error e => (.error (.err e.message), db)
  | .ok exp => (.ok (some exp), db)

/-- `licelRepository.FindExperimentByTimeAndTitle`. -/
def FindExperimentByTimeAndTitle (startTime : Time) (title : String) (db : Mongo) :
    Except Fault (Option Experiment) × Mongo :=
  match FindOne db.Experiments
      (fun e => decide (e.StartTime = startTime) && decide (e.Title = title)) with
  | .error .errNoDocuments => (.ok none, db)
  | .error e => (.error (.err e.message), db)
  | .ok exp => (.ok (some exp), db)

/-- `licelRepository.FindMeasurement`. -/
def FindMeasurement (expID : ObjectID) (startTime stopTime : Time) (db : Mongo) :
    Except Fault (Option Measurement) × Mongo :=
  match FindOne db.Measurements
      (fun m => decide (m.ExperimentID = expID) &&
        decide (m.Data.MeasurementStartTime = startTime) &&
        decide (m.Data.MeasurementStopTime = stopTime)) with
  | .error .errNoDocuments => (.ok none, db)
  | .error e => (.error (.err e.message), db)
  | .ok meas => (.ok (some meas), db)

/-- `licelRepository.CreateMeasurement`: `meas.ExperimentID = expId`, then the
insert; the stamped measurement is returned. -/
def CreateMeasurement (expId : ObjectID) (meas : Measurement) (db : Mongo) :
    Except Fault (Option Measurement) × Mongo :=
  let meas := { meas with ExperimentID := expId }
  match InsertOne Measurement.ID db.Measurements meas with
  | .error e => (.error (.err ("ошибка при вставке измерения: " ++ e.message)), db)
  | .ok coll => (.ok (some meas), { db with Measurements := coll })

/-- `licelRepository.FindProcessingTask`. -/
def FindProcessingTask (expID : ObjectID) (db : Mongo) :
    Except Fault (Option ProcessingTask) × Mongo :=
  match FindOne db.Processing (fun t => decide (t.ExperimentID = expID)) with
  | .error .errNoDocuments => (.ok none, db)
  | .error e => (.error (.err e.message), db)
  | .ok task => (.ok (some task), db)

/-- `licelRepository.CreateProcessingTask`: `procTask.ExperimentID = expID`,
then the insert; the stamped task is returned. -/
def CreateProcessingTask (expID : ObjectID) (procTask : ProcessingTask) (db : Mongo) :
    Except Fault (Option ProcessingTask) × Mongo :=
  let procTask := { procTask with ExperimentID := expID }
  match InsertOne ProcessingTask.ID db.Processing procTask with
  | .error e => (.error (.err ("ошибка при создании задачи обработки: " ++ e.message)), db)
  | .ok coll => (.ok (some procTask), { db with Processing := coll })

/-- `licelRepository.FindAllMeasurementsByExpID`. -/
def FindAllMeasurementsByExpID (expID : ObjectID) (db : Mongo) :
    Except Fault (List Measurement) × Mongo :=
  match Find db.Measurements (fun m => decide (m.ExperimentID = expID)) with
  | .error e => (.error (.err e.message), db)
  | .ok measurements => (.ok measurements, db)

end licelRepository

/-- `NewLicelRepository`: the repository as a `LicelRepo` over the store;
`newID` is the value `bson.NewObjectID()` yields if `CreateExperiment` is
called. -/
def NewLicelRepository (newID : ObjectID) : LicelRepo Mongo :=
  { CreateExperiment := licelRepository.CreateExperiment newID
    FindExperimentByTime := licelRepository.FindExperimentByTime
    FindExperimentByTimeAndTitle := licelRepository.FindExperimentByTimeAndTitle
    CreateMeasurement := licelRepository.CreateMeasurement
    FindMeasurement := licelRepository.FindMeasurement
    FindProcessingTask := licelRepository.FindProcessingTask
    FindAllMeasurementsByExpID := licelRepository.FindAllMeasurementsByExpID
    CreateProcessingTask := licelRepository.CreateProcessingTask }

/-! ## The service (`service.go`) -/

/-- The wrapping `fmt.Errorf(msg + ": %w", err)` of a returned error; an abort
is not a returned error and passes through. -/
def wrapFault (msg : String) : Fault → Fault
  | .err e => .err (msg ++ ": " ++ e)
  | .indexOutOfRange => .indexOutOfRange

namespace licelService

/-- `licelService.AddExperiment`. -/
def AddExperiment {σ : Type} (repo : LicelRepo σ) (startTime : Time) (title comments : String)
    (s : σ) : Except Fault (Option Experiment) × σ :=
  match repo.FindExperimentByTimeAndTitle startTime title s with
  | (.error f, s1) => (.error (wrapFault "ошибка при поиске эксперимента" f), s1)
  | (.ok (some foundExp), s1) => (.ok (some foundExp), s1)
  | (.ok none, s1) =>
    match repo.CreateExperiment startTime title comments s1 with
    | (.error f, s2) => (.error (wrapFault "ошибка при создании эксперимента" f), s2)
    | (.ok newExp, s2) => (.ok newExp, s2)

/-- `licelService.AddMeasurement`. -/
def AddMeasurement {σ : Type} (repo : LicelRepo σ) (expId : ObjectID) (meas : Measurement)
    (s : σ) : Except Fault (Option Measurement) × σ :=
  match repo.FindMeasurement expId meas.Data.MeasurementStartTime
      meas.Data.MeasurementStopTime s with
  | (.error f, s1) => (.error (wrapFault "ошибка при поиске измерения" f), s1)
  | (.ok (some foundMeas), s1) => (.ok (some foundMeas), s1)
  | (.ok none, s1) =>
    match repo.CreateMeasurement expId meas s1 with
    | (.error f, s2) => (.error (wrapFault "ошибка при создании измерения" f), s2)
    | (.ok createdMeas, s2) => (.ok createdMeas, s2)

/-- `licelService.CreateProcessingTask`; `now` is the value of `time.Now()`
inside `AverageMeasurements` and `newID` the value of `bson.NewObjectID()`
inside `NewProcessingTask`. -/
def CreateProcessingTask {σ : Type} (repo : LicelRepo σ) (now : Time) (newID : ObjectID)
    (expId : ObjectID) (s : σ) : Except Fault (Option ProcessingTask) × σ :=
  match repo.FindProcessingTask expId s with
  | (.error f, s1) => (.error (wrapFault "ошибка при поиске задачи обработки" f), s1)
  | (.ok (some foundTask), s1) => (.ok (some foundTask), s1)
  | (.ok none, s1) =>
    match repo.FindAllMeasurementsByExpID expId s1 with
    | (.error f, s2) => (.error f, s2)
    | (.ok meas, s2) =>
      match AverageMeasurements now meas with
      | .error f => (.error f, s2)
      | .ok lf =>
        let newProcTask := NewProcessingTask newID expId lf
        match repo.CreateProcessingTask expId newProcTask s2 with
        | (.error f, s3) => (.error (wrapFault "ошибка при создании задачи обработки" f), s3)
        | (.ok newTask, s3) => (.ok newTask, s3)

end licelService

/-! ## Concrete inputs -/

/-- A measurement with the given identifiers, capture window and profiles,
every other field of the capture being zero. -/
def capture (id expID : ObjectID) (start stop : Time) (profiles : List LicelProfile) :
    Measurement :=
  { ID := id, ExperimentID := expID,
    Data := { zeroLicelFile with
      MeasurementStartTime := start, MeasurementStopTime := stop, Profiles := profiles } }

/-- One channel, 100 shots, profile `[1, 2, 3]`, window 10 to 20. -/
def capture123 : Measurement := capture 1 7 10 20 [{ NShots := 100, Data := [1, 2, 3] }]

/-- One channel, 150 shots, profile `[4, 5, 6]`, window 30 to 40. -/
def capture456 : Measurement := capture 2 7 30 40 [{ NShots := 150, Data := [4, 5, 6] }]

/-- One channel, 150 shots, profile `[4, 5]`, window 30 to 40. -/
def capture45 : Measurement := capture 3 7 30 40 [{ NShots := 150, Data := [4, 5] }]

/-- One channel, 100 shots, profile `[1]`, window 10 to 20. -/
def capture1 : Measurement := capture 4 7 10 20 [{ NShots := 100, Data := [1] }]

/-- One channel, 150 shots, profile `[1, 2]`, window 30 to 40. -/
def capture12 : Measurement := capture 5 7 30 40 [{ NShots := 150, Data := [1, 2] }]

/-- One channel, 100 shots, profile `[1, 2, 3]`, window -20 to -5: a capture
that stops before the zero value of `time.Time`. -/
def captureEarly : Measurement := capture 6 7 (-20) (-5) [{ NShots := 100, Data := [1, 2, 3] }]

/-- The store with no document. -/
def emptyStore : Mongo := { Experiments := [], Measurements := [], Processing := [] }

/-- The zero-valued capture that `AverageMeasurements` returns on no
measurement: every field zero, the start being the wall-clock time `now`. -/
def zeroResult (now : Time) : LicelFile :=
  { zeroLicelFile with MeasurementStartTime := now, MeasurementStopTime := zeroTime }

/-- The store that holds the measurement `capture123` of experiment 7 and
nothing else. -/
def storeOne : Mongo := { emptyStore with Measurements := [capture123] }

/-- A processing result of experiment 7. -/
def doneTask : ProcessingTask :=
  { ID := 8, ExperimentID := 7, MeasurementIDs := [], AveragedData := capture123.Data }

/-- The store that holds `capture123` and the processing result `doneTask`
of experiment 7. -/
def storeDone : Mongo := { storeOne with Processing := [doneTask] }

/-- The task that `CreateProcessingTask` builds for experiment 7 from
`capture123` with the new identifier 9. -/
def builtTask : ProcessingTask :=
  { ID := 9, ExperimentID := 7, MeasurementIDs := [], AveragedData := capture123.Data }

/-- The store that holds one experiment, of start time 10 and title
`site-B`, and nothing else. -/
def storeSiteB : Mongo :=
  { emptyStore with
    Experiments := [{ ID := 5, StartTime := 10, Title := "site-B", Comments := "" }] }

/-- The filter of `FindExperimentByTimeAndTitle`: the natural key of an
experiment. -/
def experimentKey (startTime : Time) (title : String) (e : Experiment) : Bool :=
  decide (e.StartTime = startTime) && decide (e.Title = title)

/-- The filter of `FindMeasurement`: the natural key of a measurement within
an experiment. -/
def measurementKey (expID : ObjectID) (startTime stopTime : Time) (m : Measurement) : Bool :=
  decide (m.ExperimentID = expID) && decide (m.Data.MeasurementStartTime = startTime) &&
    decide (m.Data.MeasurementStopTime = stopTime)

/-- One channel, 100 shots, the one sample `10 ^ 16`, window 10 to 20. -/
def captureBig : Measurement :=
  capture 11 7 10 20 [{ NShots := 100, Data := [10000000000000000] }]

/-- One channel, 150 shots, the one sample `1`, window 30 to 40. -/
def captureUnit : Measurement := capture 12 7 30 40 [{ NShots := 150, Data := [1] }]

/-- One channel, 120 shots, the one sample `-10 ^ 16`, window 50 to 60. -/
def captureNegBig : Measurement :=
  capture 13 7 50 60 [{ NShots := 120, Data := [-10000000000000000] }]

/-! ## Lemmas on the loops of `AverageMeasurements` -/

@[simp]
theorem nshotsAt_nil (i : Nat) : nshotsAt [] i = 0 := by
  simp [nshotsAt]

@[simp]
theorem nshotsAt_cons_zero (p : LicelProfile) (ps : List LicelProfile) :
    nshotsAt (p :: ps) 0 = p.NShots := by
  simp [nshotsAt]

@[simp]
theorem nshotsAt_cons_succ (p : LicelProfile) (ps : List LicelProfile) (i : Nat) :
    nshotsAt (p :: ps) (i + 1) = nshotsAt ps i := by
  simp [nshotsAt]

@[simp]
theorem sampleAt_nil (i j : Nat) : sampleAt [] i j = 0 := by
  simp [sampleAt]

@[simp]
theorem sampleAt_cons_zero (p : LicelProfile) (ps : List LicelProfile) (j : Nat) :
    sampleAt (p :: ps) 0 j = p.Data.getD j 0 := by
  simp [sampleAt]

@[simp]
theorem sampleAt_cons_succ (p : LicelProfile) (ps : List LicelProfile) (i j : Nat) :
    sampleAt (p :: ps) (i + 1) j = sampleAt ps i j := by
  simp [sampleAt]

theorem nshotsAt_of_length_le (ps : List LicelProfile) (i : Nat) (h : ps.length ≤ i) :
    nshotsAt ps i = 0 := by
  simp [nshotsAt, List.getElem?_eq_none h]

theorem sampleAt_of_length_le (ps : List LicelProfile) (i j : Nat) (h : ps.length ≤ i) :
    sampleAt ps i j = 0 := by
  simp [sampleAt, List.getElem?_eq_none h]

theorem shapeOf_length (ps : List LicelProfile) : (shapeOf ps).length = ps.length := by
  simp [shapeOf]

/-- The inner loop returns when the measurement's profile is not longer than
the result's, keeps the length, and adds sample by sample. -/
theorem addData_some (r d : List Int) (h : d.length ≤ r.length) :
    ∃ r', addData r d = some r' ∧ r'.length = r.length ∧
      ∀ j, r'.getD j 0 = r.getD j 0 + d.getD j 0 := by
  induction r generalizing d with
  | nil =>
    cases d with
    | nil => exact ⟨[], by simp [addData]⟩
    | cons y d => simp at h
  | cons x r ih =>
    cases d with
    | nil => exact ⟨x :: r, by simp [addData]⟩
    | cons y d =>
      obtain ⟨r', h1, h2, h3⟩ := ih d (by simpa using h)
      refine ⟨(x + y) :: r', by simp [addData, h1], by simp [h2], ?_⟩
      intro j
      cases j with
      | zero => simp
      | succ j => simpa using h3 j

/-- The inner loop aborts when the measurement's profile is longer than the
result's. -/
theorem addData_none (r d : List Int) (h : r.length < d.length) : addData r d = none := by
  induction r generalizing d with
  | nil =>
    cases d with
    | nil => simp at h
    | cons y d => simp [addData]
  | cons x r ih =>
    cases d with
    | nil => simp at h
    | cons y d => simp [addData, ih d (by simpa using h)]

/-- The channel loop returns on profiles that fit, keeps the shape of the
result, and adds shot counts and samples channel by channel. -/
theorem addProfiles_some (R P : List LicelProfile) (h : fits (shapeOf R) P = true) :
    ∃ R', addProfiles R P = some R' ∧ shapeOf R' = shapeOf R ∧
      (∀ i, i < R.length → nshotsAt R' i = nshotsAt R i + nshotsAt P i) ∧
      (∀ i j, i < R.length → sampleAt R' i j = sampleAt R i j + sampleAt P i j) := by
  induction R generalizing P with
  | nil => exact ⟨[], by simp [addProfiles]⟩
  | cons r rs ih =>
    cases P with
    | nil => simp [shapeOf, fits] at h
    | cons p ps =>
      simp only [shapeOf, List.map_cons, fits, Bool.and_eq_true, decide_eq_true_eq] at h
      obtain ⟨d, hd1, hd2, hd3⟩ := addData_some r.Data p.Data h.1
      obtain ⟨rs', hr1, hr2, hr3, hr4⟩ := ih ps h.2
      refine ⟨{ NShots := r.NShots + p.NShots, Data := d } :: rs', by simp [addProfiles, hd1, hr1],
        ?_, ?_, ?_⟩
      · simpa [shapeOf, hd2] using hr2
      · intro i hi
        cases i with
        | zero => simp
        | succ i => simpa using hr3 i (by simpa using hi)
      · intro i j hi
        cases i with
        | zero => simpa using hd3 j
        | succ i => simpa using hr4 i j (by simpa using hi)

/-- The channel loop aborts on profiles that do not fit. -/
theorem addProfiles_none (R P : List LicelProfile) (h : fits (shapeOf R) P = false) :
    addProfiles R P = none := by
  induction R generalizing P with
  | nil => simp [shapeOf, fits] at h
  | cons r rs ih =>
    cases P with
    | nil => simp [addProfiles]
    | cons p ps =>
      simp only [shapeOf, List.map_cons, fits, Bool.and_eq_false_iff, decide_eq_false_iff_not,
        not_le] at h
      rcases h with h | h
      · simp [addProfiles, addData_none _ _ h]
      · have := ih ps h
        simp only [addProfiles, this]
        cases addData r.Data p.Data <;> rfl

/-- Profiles of the shape of the result fit it. -/
theorem fits_of_shapeOf_eq (shape : List Nat) (P : List LicelProfile) (h : shapeOf P = shape) :
    fits shape P = true := by
  subst h
  induction P with
  | nil => simp [shapeOf, fits]
  | cons p ps ih => simpa [shapeOf, fits] using ih

/-- Profiles with a channel for every length of `shape`, none longer, fit. -/
theorem fits_of_le (shape : List Nat) (P : List LicelProfile) (hlen : shape.length ≤ P.length)
    (h : ∀ i, i < shape.length → (shapeOf P).getD i 0 ≤ shape.getD i 0) :
    fits shape P = true := by
  induction shape generalizing P with
  | nil => simp [fits]
  | cons n ns ih =>
    cases P with
    | nil => simp at hlen
    | cons p ps =>
      have h0 := h 0 (by simp)
      have hs : ∀ i, i < ns.length → (shapeOf ps).getD i 0 ≤ ns.getD i 0 := by
        intro i hi
        simpa [shapeOf] using h (i + 1) (by simpa using hi)
      have := ih ps (by simpa using hlen) hs
      simp only [fits, Bool.and_eq_true, decide_eq_true_eq]
      exact ⟨by simpa [shapeOf] using h0, this⟩

/-- An iteration entered with a result without channels takes the profiles of
the measurement. -/
theorem averageStep_nil (st : AvgState) (m : Measurement) (h : st.result.Profiles = []) :
    ∃ st1, averageStep st m = .ok st1 ∧ st1.result.Profiles = m.Data.Profiles := by
  simp [averageStep, h]

/-- An iteration entered with a result with channels, when the channel loop
returns. -/
theorem averageStep_cons (st : AvgState) (m : Measurement) (R' : List LicelProfile)
    (hne : st.result.Profiles ≠ [])
    (h : addProfiles st.result.Profiles m.Data.Profiles = some R') :
    ∃ st1, averageStep st m = .ok st1 ∧ st1.result.Profiles = R' := by
  have : st.result.Profiles.length ≠ 0 := by simpa using hne
  simp [averageStep, this, h]

/-- An iteration entered with a result with channels, when the channel loop
aborts. -/
theorem averageStep_abort (st : AvgState) (m : Measurement) (hne : st.result.Profiles ≠ [])
    (h : addProfiles st.result.Profiles m.Data.Profiles = none) :
    averageStep st m = .error .indexOutOfRange := by
  have : st.result.Profiles.length ≠ 0 := by simpa using hne
  simp [averageStep, this, h]

/-- An iteration never returns an error value. -/
theorem averageStep_ne_err (st : AvgState) (m : Measurement) (e : String) :
    averageStep st m ≠ .error (.err e) := by
  by_cases hR : st.result.Profiles.length = 0
  · simp [averageStep, hR]
  · cases hp : addProfiles st.result.Profiles m.Data.Profiles <;> simp [averageStep, hR, hp]

/-- The running earliest start and latest stop after one iteration. -/
theorem averageStep_times (st st1 : AvgState) (m : Measurement)
    (h : averageStep st m = .ok st1) :
    st1.startTime = min st.startTime m.Data.MeasurementStartTime ∧
      st1.stopTime = max st.stopTime m.Data.MeasurementStopTime := by
  have key : ∀ (a b : Int), (if Before a b then a else b) = min b a ∧
      (if After a b then a else b) = max b a := by
    intro a b
    simp only [Before, After, decide_eq_true_eq]
    constructor
    · by_cases h : a < b
      · simp [h, min_eq_right (le_of_lt h)]
      · simp [h, min_eq_left (not_lt.mp h)]
    · by_cases h : b < a
      · simp [h, max_eq_right (le_of_lt h)]
      · simp [h, max_eq_left (not_lt.mp h)]
  by_cases hR : st.result.Profiles.length = 0
  · simp only [averageStep, hR, if_true, Except.ok.injEq] at h
    subst h
    exact ⟨(key _ _).1, (key _ _).2⟩
  · simp only [averageStep, hR, if_false] at h
    cases hp : addProfiles st.result.Profiles m.Data.Profiles with
    | none => simp [hp] at h
    | some R' =>
      simp only [hp, Except.ok.injEq] at h
      subst h
      exact ⟨(key _ _).1, (key _ _).2⟩

/-- The loop never returns an error value. -/
theorem averageLoop_ne_err (ms : List Measurement) (st : AvgState) (e : String) :
    averageLoop st ms ≠ .error (.err e) := by
  induction ms generalizing st with
  | nil => simp [averageLoop]
  | cons m ms ih =>
    simp only [averageLoop]
    cases hstep : averageStep st m with
    | ok st1 => exact ih st1
    | error f =>
      intro hf
      simp only [Except.error.injEq] at hf
      exact averageStep_ne_err st m e (by rw [hstep, hf])

/-- The loop returns when every index stays in range. -/
theorem averageLoop_returns (ms : List Measurement) (st : AvgState)
    (h : inRange (shapeOf st.result.Profiles) ms = true) :
    ∃ st', averageLoop st ms = .ok st' := by
  induction ms generalizing st with
  | nil => exact ⟨st, rfl⟩
  | cons m ms ih =>
    cases hR : st.result.Profiles with
    | nil =>
      obtain ⟨st1, h1, h2⟩ := averageStep_nil st m hR
      rw [hR] at h
      simp only [shapeOf, List.map_nil, inRange] at h
      obtain ⟨st', h'⟩ := ih st1 (by rw [h2]; exact h)
      exact ⟨st', by simp [averageLoop, h1, h']⟩
    | cons r rs =>
      rw [hR] at h
      simp only [shapeOf, List.map_cons, inRange, Bool.and_eq_true] at h
      have hfit : fits (shapeOf st.result.Profiles) m.Data.Profiles = true := by
        rw [hR]; exact h.1
      obtain ⟨R', hR1, hR2, -, -⟩ := addProfiles_some _ _ hfit
      obtain ⟨st1, h1, h2⟩ := averageStep_cons st m R' (by simp [hR]) hR1
      obtain ⟨st', h'⟩ := ih st1 (by rw [h2, hR2, hR]; exact h.2)
      exact ⟨st', by simp [averageLoop, h1, h']⟩

/-- The loop aborts with an index out of range when some index leaves its
range. -/
theorem averageLoop_aborts (ms : List Measurement) (st : AvgState)
    (h : inRange (shapeOf st.result.Profiles) ms = false) :
    averageLoop st ms = .error .indexOutOfRange := by
  induction ms generalizing st with
  | nil => simp [inRange] at h
  | cons m ms ih =>
    cases hR : st.result.Profiles with
    | nil =>
      obtain ⟨st1, h1, h2⟩ := averageStep_nil st m hR
      rw [hR] at h
      simp only [shapeOf, List.map_nil, inRange] at h
      simp [averageLoop, h1, ih st1 (by rw [h2]; exact h)]
    | cons r rs =>
      rw [hR] at h
      simp only [shapeOf, List.map_cons, inRange, Bool.and_eq_false_iff] at h
      cases hfit : fits (shapeOf st.result.Profiles) m.Data.Profiles with
      | false =>
        have := averageStep_abort st m (by simp [hR]) (addProfiles_none _ _ hfit)
        simp [averageLoop, this]
      | true =>
        have hrest : inRange (shapeOf st.result.Profiles) ms = false := by
          rcases h with h | h
          · rw [hR] at hfit
            simp only [shapeOf, List.map_cons] at hfit
            rw [hfit] at h
            cases h
          · rw [hR]; exact h
        obtain ⟨R', hR1, hR2, -, -⟩ := addProfiles_some _ _ hfit
        obtain ⟨st1, h1, h2⟩ := averageStep_cons st m R' (by simp [hR]) hR1
        simp [averageLoop, h1, ih st1 (by rw [h2, hR2]; exact hrest)]

/-- Entered with a result that has channels, on measurements that keep
every index in range, the loop returns; the result keeps its shape, and each
of its shot counts and samples has grown by the sum of the corresponding
values of the measurements. -/
theorem averageLoop_sums (ms : List Measurement) (st : AvgState)
    (hne : st.result.Profiles ≠ [])
    (h : inRange (shapeOf st.result.Profiles) ms = true) :
    ∃ st', averageLoop st ms = .ok st' ∧
      shapeOf st'.result.Profiles = shapeOf st.result.Profiles ∧
      (∀ i, i < st.result.Profiles.length →
        nshotsAt st'.result.Profiles i =
          nshotsAt st.result.Profiles i + (ms.map fun m => nshotsAt m.Data.Profiles i).sum) ∧
      (∀ i j, i < st.result.Profiles.length →
        sampleAt st'.result.Profiles i j =
          sampleAt st.result.Profiles i j +
            (ms.map fun m => sampleAt m.Data.Profiles i j).sum) := by
  induction ms generalizing st with
  | nil => exact ⟨st, rfl, rfl, by simp, by simp⟩
  | cons m ms ih =>
    cases hR : st.result.Profiles with
    | nil => exact absurd hR hne
    | cons r rs =>
      have h' := h
      rw [hR] at h'
      simp only [shapeOf, List.map_cons, inRange, Bool.and_eq_true] at h'
      have hfit : fits (shapeOf st.result.Profiles) m.Data.Profiles = true := by
        rw [hR]; exact h'.1
      obtain ⟨R', hR1, hR2, hR3, hR4⟩ := addProfiles_some _ _ hfit
      obtain ⟨st1, h1, h2⟩ := averageStep_cons st m R' hne hR1
      have hlen : R'.length = st.result.Profiles.length := by
        rw [← shapeOf_length R', hR2, shapeOf_length]
      have hne1 : st1.result.Profiles ≠ [] := by
        rw [h2]
        intro hnil
        rw [hnil, hR] at hlen
        simp at hlen
      obtain ⟨st', hl, hs, hn, hd⟩ := ih st1 hne1 (by rw [h2, hR2, hR]; exact h'.2)
      rw [h2] at hs hn hd
      rw [← hR]
      refine ⟨st', by simp [averageLoop, h1, hl], by rw [hs, hR2], ?_, ?_⟩
      · intro i hi
        rw [hn i (by rw [hlen]; exact hi), hR3 i hi, List.map_cons, List.sum_cons]
        ring
      · intro i j hi
        rw [hd i j (by rw [hlen]; exact hi), hR4 i j hi, List.map_cons, List.sum_cons]
        ring

/-- On measurements without channels the loop returns a result without
channels. -/
theorem averageLoop_no_channels (ms : List Measurement) (st : AvgState)
    (h0 : st.result.Profiles = []) (h : ∀ m ∈ ms, m.Data.Profiles = []) :
    ∃ st', averageLoop st ms = .ok st' ∧ st'.result.Profiles = [] := by
  induction ms generalizing st with
  | nil => exact ⟨st, rfl, h0⟩
  | cons m ms ih =>
    obtain ⟨st1, h1, h2⟩ := averageStep_nil st m h0
    obtain ⟨st', hl, hp⟩ :=
      ih st1 (by rw [h2]; exact h m (by simp)) (fun x hx => h x (by simp [hx]))
    exact ⟨st', by simp [averageLoop, h1, hl], hp⟩

/-- Measurements that each fit a shape with channels keep every index in
range. -/
theorem inRange_of_fits (shape : List Nat) (ms : List Measurement) (hne : shape ≠ [])
    (h : ∀ m ∈ ms, fits shape m.Data.Profiles = true) : inRange shape ms = true := by
  induction ms with
  | nil => simp [inRange]
  | cons m ms ih =>
    cases shape with
    | nil => exact absurd rfl hne
    | cons n ns =>
      simp only [inRange, Bool.and_eq_true]
      exact ⟨h m (by simp), ih (fun x hx => h x (by simp [hx]))⟩

/-- A sum of zeros. -/
theorem sum_map_eq_zero {α : Type} (xs : List α) (f : α → Int) (h : ∀ x ∈ xs, f x = 0) :
    (xs.map f).sum = 0 := by
  induction xs with
  | nil => simp
  | cons x xs ih =>
    simp [h x (by simp), ih (fun y hy => h y (by simp [hy]))]

/-- What `AverageMeasurements` returns is the result of the loop with the
running start and stop written into it. -/
theorem AverageMeasurements_of_loop (now : Time) (ms : List Measurement) (st' : AvgState)
    (h : averageLoop { result := zeroLicelFile, startTime := now, stopTime := zeroTime } ms =
      .ok st') :
    ∃ r, AverageMeasurements now ms = .ok r ∧ r.Profiles = st'.result.Profiles ∧
      r.MeasurementStartTime = st'.startTime ∧ r.MeasurementStopTime = st'.stopTime := by
  simp [AverageMeasurements, h]

/-- When the first measurement has channels and every later one fits it,
`AverageMeasurements` returns a result of the shape of the first measurement
whose shot counts and samples are the sums over the measurements. -/
theorem AverageMeasurements_core (now : Time) (m0 : Measurement) (rest : List Measurement)
    (hne : m0.Data.Profiles ≠ [])
    (h : ∀ m ∈ rest, fits (shapeOf m0.Data.Profiles) m.Data.Profiles = true) :
    ∃ r, AverageMeasurements now (m0 :: rest) = .ok r ∧
      shapeOf r.Profiles = shapeOf m0.Data.Profiles ∧
      (∀ i, i < m0.Data.Profiles.length →
        nshotsAt r.Profiles i = ((m0 :: rest).map fun m => nshotsAt m.Data.Profiles i).sum) ∧
      (∀ i j, i < m0.Data.Profiles.length →
        sampleAt r.Profiles i j =
          ((m0 :: rest).map fun m => sampleAt m.Data.Profiles i j).sum) := by
  obtain ⟨st1, h1, h2⟩ :=
    averageStep_nil { result := zeroLicelFile, startTime := now, stopTime := zeroTime } m0 rfl
  have hshape : shapeOf m0.Data.Profiles ≠ [] := by
    intro hnil
    exact hne (by simpa [shapeOf] using hnil)
  obtain ⟨st', hl, hs, hn, hd⟩ :=
    averageLoop_sums rest st1 (by rw [h2]; exact hne)
      (by rw [h2]; exact inRange_of_fits _ _ hshape h)
  obtain ⟨r, hr, hp, -, -⟩ :=
    AverageMeasurements_of_loop now (m0 :: rest) st' (by simp [averageLoop, h1, hl])
  rw [h2] at hs hn hd
  refine ⟨r, hr, by rw [hp, hs], ?_, ?_⟩
  · intro i hi
    rw [hp, hn i hi, List.map_cons, List.sum_cons]
  · intro i j hi
    rw [hp, hd i j hi, List.map_cons, List.sum_cons]

/-- When no measurement has a channel, `AverageMeasurements` returns a result
without channels. -/
theorem AverageMeasurements_no_channels (now : Time) (ms : List Measurement)
    (h : ∀ m ∈ ms, m.Data.Profiles = []) :
    ∃ r, AverageMeasurements now ms = .ok r ∧ r.Profiles = [] := by
  obtain ⟨st', hl, hp⟩ :=
    averageLoop_no_channels ms { result := zeroLicelFile, startTime := now, stopTime := zeroTime }
      rfl h
  obtain ⟨r, hr, hp', -, -⟩ := AverageMeasurements_of_loop now ms st' hl
  exact ⟨r, hr, by rw [hp', hp]⟩

/-! ## The aggregate of equal-shape measurements -/

/-- C1: for every non-empty list of measurements that all have the same
number of channels and the same profile length per channel (the same
`shape`), `AverageMeasurements` returns a result of that shape in which, for
every channel `i` and sample index `j`, `Profiles[i].Data[j]` is the sum over
the input measurements of their `Profiles[i].Data[j]`, each input read with
its value before the call. -/
theorem AverageMeasurements_sums_samples (now : Time) (ms : List Measurement)
    (shape : List Nat) (hne : ms ≠ [])
    (hshape : ∀ m ∈ ms, shapeOf m.Data.Profiles = shape) :
    ∃ r, AverageMeasurements now ms = .ok r ∧ shapeOf r.Profiles = shape ∧
      ∀ i j, sampleAt r.Profiles i j = (ms.map fun m => sampleAt m.Data.Profiles i j).sum := by
  cases ms with
  | nil => exact absurd rfl hne
  | cons m0 rest =>
    have h0 : shapeOf m0.Data.Profiles = shape := hshape m0 (by simp)
    by_cases hP : m0.Data.Profiles = []
    · have hs : shape = [] := by rw [← h0, hP]; rfl
      have hall : ∀ m ∈ m0 :: rest, m.Data.Profiles = [] := by
        intro m hm
        have := hshape m hm
        rw [hs] at this
        simpa [shapeOf] using this
      obtain ⟨r, hr, hp⟩ := AverageMeasurements_no_channels now (m0 :: rest) hall
      refine ⟨r, hr, by rw [hp, hs]; rfl, ?_⟩
      intro i j
      rw [hp, sampleAt_nil]
      exact (sum_map_eq_zero _ _ (fun m hm => by rw [hall m hm, sampleAt_nil])).symm
    · obtain ⟨r, hr, hs, -, hd⟩ := AverageMeasurements_core now m0 rest hP
        (fun m hm => fits_of_shapeOf_eq _ _ (by rw [hshape m (by simp [hm]), h0]))
      refine ⟨r, hr, by rw [hs, h0], ?_⟩
      intro i j
      by_cases hi : i < m0.Data.Profiles.length
      · exact hd i j hi
      · have hlen : ∀ m ∈ m0 :: rest, m.Data.Profiles.length ≤ i := by
          intro m hm
          have : (shapeOf m.Data.Profiles).length = (shapeOf m0.Data.Profiles).length := by
            rw [hshape m hm, h0]
          rw [shapeOf_length, shapeOf_length] at this
          omega
        have hr' : r.Profiles.length ≤ i := by
          have : (shapeOf r.Profiles).length = (shapeOf m0.Data.Profiles).length := by rw [hs]
          rw [shapeOf_length, shapeOf_length] at this
          omega
        rw [sampleAt_of_length_le _ _ _ hr']
        exact (sum_map_eq_zero _ _
          (fun m hm => sampleAt_of_length_le _ _ _ (hlen m hm))).symm

/-- C1, at the profiles `[1, 2, 3]` and `[4, 5, 6]` of one channel each: the
result has the profile `[5, 7, 9]`. -/
theorem AverageMeasurements_sums_samples_witness :
    ([capture123, capture456] ≠ [] ∧
      ∀ m ∈ [capture123, capture456], shapeOf m.Data.Profiles = [3]) ∧
    (∃ r, AverageMeasurements 50 [capture123, capture456] = .ok r ∧
      shapeOf r.Profiles = [3] ∧
      ∀ i j, sampleAt r.Profiles i j =
        ([capture123, capture456].map fun m => sampleAt m.Data.Profiles i j).sum) ∧
    (∃ r, AverageMeasurements 50 [capture123, capture456] = .ok r ∧
      r.Profiles = [{ NShots := 250, Data := [5, 7, 9] }]) :=
  ⟨⟨by decide, by decide⟩,
    AverageMeasurements_sums_samples 50 [capture123, capture456] [3] (by decide) (by decide),
    ⟨_, rfl, rfl⟩⟩

/-! ## Shot counts -/

/-- C2, as stated, fails: two measurements with one channel each, the second
with the longer profile, make `result.Profiles[0].Data[1]` run out of range,
and `AverageMeasurements` returns no result. -/
theorem AverageMeasurements_longer_profile_aborts :
    (∀ m ∈ [capture1, capture12], m.Data.Profiles.length = 1) ∧
      AverageMeasurements 50 [capture1, capture12] = .error .indexOutOfRange :=
  ⟨by decide, rfl⟩

/-- C2, amended: for every non-empty list `m0 :: rest` of measurements with
the same number `n` of channels in which no channel profile of a later
measurement is longer than the profile of that channel in the first
measurement, `AverageMeasurements` returns a result with `n` channels whose
`Profiles[i].NShots` is, for every channel `i`, the sum of `Profiles[i].NShots`
over the input measurements. -/
theorem AverageMeasurements_sums_nshots (now : Time) (m0 : Measurement)
    (rest : List Measurement) (n : Nat)
    (hch : ∀ m ∈ m0 :: rest, m.Data.Profiles.length = n)
    (hlen : ∀ m ∈ rest, ∀ i, i < n →
      (shapeOf m.Data.Profiles).getD i 0 ≤ (shapeOf m0.Data.Profiles).getD i 0) :
    ∃ r, AverageMeasurements now (m0 :: rest) = .ok r ∧ r.Profiles.length = n ∧
      ∀ i, nshotsAt r.Profiles i =
        ((m0 :: rest).map fun m => nshotsAt m.Data.Profiles i).sum := by
  have h0 : m0.Data.Profiles.length = n := hch m0 (by simp)
  by_cases hP : m0.Data.Profiles = []
  · have hn : n = 0 := by rw [← h0, hP]; rfl
    have hall : ∀ m ∈ m0 :: rest, m.Data.Profiles = [] := by
      intro m hm
      have := hch m hm
      rw [hn] at this
      simpa using this
    obtain ⟨r, hr, hp⟩ := AverageMeasurements_no_channels now (m0 :: rest) hall
    refine ⟨r, hr, by rw [hp, hn]; rfl, ?_⟩
    intro i
    rw [hp, nshotsAt_nil]
    exact (sum_map_eq_zero _ _ (fun m hm => by rw [hall m hm, nshotsAt_nil])).symm
  · obtain ⟨r, hr, hs, hsum, -⟩ := AverageMeasurements_core now m0 rest hP
      (fun m hm => fits_of_le _ _
        (by rw [shapeOf_length, h0, hch m (by simp [hm])])
        (fun i hi => hlen m hm i (by rw [shapeOf_length, h0] at hi; exact hi)))
    have hr' : r.Profiles.length = n := by
      have : (shapeOf r.Profiles).length = (shapeOf m0.Data.Profiles).length := by rw [hs]
      rw [shapeOf_length, shapeOf_length] at this
      omega
    refine ⟨r, hr, hr', ?_⟩
    intro i
    by_cases hi : i < m0.Data.Profiles.length
    · exact hsum i hi
    · rw [nshotsAt_of_length_le _ _ (by omega)]
      exact (sum_map_eq_zero _ _
        (fun m hm => nshotsAt_of_length_le _ _ (by rw [hch m hm]; omega))).symm

/-- C2, amended, at channel-0 shot counts 100 and 150 (profiles `[1, 2, 3]`
and `[4, 5]`): the result has the channel-0 shot count 250. -/
theorem AverageMeasurements_sums_nshots_witness :
    ((∀ m ∈ capture123 :: [capture45], m.Data.Profiles.length = 1) ∧
      ∀ m ∈ [capture45], ∀ i, i < 1 →
        (shapeOf m.Data.Profiles).getD i 0 ≤ (shapeOf capture123.Data.Profiles).getD i 0) ∧
    (∃ r, AverageMeasurements 50 (capture123 :: [capture45]) = .ok r ∧
      r.Profiles.length = 1 ∧
      ∀ i, nshotsAt r.Profiles i =
        ((capture123 :: [capture45]).map fun m => nshotsAt m.Data.Profiles i).sum) ∧
    (∃ r, AverageMeasurements 50 (capture123 :: [capture45]) = .ok r ∧
      nshotsAt r.Profiles 0 = 250) :=
  ⟨⟨by decide, by decide⟩,
    AverageMeasurements_sums_nshots 50 capture123 [capture45] 1 (by decide) (by decide),
    ⟨_, rfl, rfl⟩⟩

/-! ## Outcomes of `AverageMeasurements` in general -/

/-- The running start and stop at the end of the loop: the start is the
earliest of the start on entry and the starts of the measurements, the stop
the latest of the stop on entry and the stops of the measurements. -/
theorem averageLoop_times (ms : List Measurement) (st st' : AvgState)
    (h : averageLoop st ms = .ok st') :
    (st'.startTime ≤ st.startTime ∧
      (∀ m ∈ ms, st'.startTime ≤ m.Data.MeasurementStartTime) ∧
      (st'.startTime = st.startTime ∨
        ∃ m ∈ ms, st'.startTime = m.Data.MeasurementStartTime)) ∧
    (st.stopTime ≤ st'.stopTime ∧
      (∀ m ∈ ms, m.Data.MeasurementStopTime ≤ st'.stopTime) ∧
      (st'.stopTime = st.stopTime ∨
        ∃ m ∈ ms, st'.stopTime = m.Data.MeasurementStopTime)) := by
  induction ms generalizing st with
  | nil =>
    simp only [averageLoop, Except.ok.injEq] at h
    subst h
    simp
  | cons m ms ih =>
    simp only [averageLoop] at h
    cases hstep : averageStep st m with
    | error f => simp [hstep] at h
    | ok st1 =>
      simp only [hstep] at h
      obtain ⟨⟨a1, a2, a3⟩, ⟨b1, b2, b3⟩⟩ := ih st1 h
      obtain ⟨t1, t2⟩ := averageStep_times st st1 m hstep
      rw [t1] at a1 a3
      rw [t2] at b1 b3
      refine ⟨⟨le_trans a1 (min_le_left _ _), ?_, ?_⟩, ⟨le_trans (le_max_left _ _) b1, ?_, ?_⟩⟩
      · intro x hx
        rcases List.mem_cons.mp hx with rfl | hx
        · exact le_trans a1 (min_le_right _ _)
        · exact a2 x hx
      · rcases a3 with a3 | ⟨x, hx, a3⟩
        · rcases min_choice st.startTime m.Data.MeasurementStartTime with hc | hc
          · exact Or.inl (by rw [a3, hc])
          · exact Or.inr ⟨m, by simp, by rw [a3, hc]⟩
        · exact Or.inr ⟨x, by simp [hx], a3⟩
      · intro x hx
        rcases List.mem_cons.mp hx with rfl | hx
        · exact le_trans (le_max_right _ _) b1
        · exact b2 x hx
      · rcases b3 with b3 | ⟨x, hx, b3⟩
        · rcases max_choice st.stopTime m.Data.MeasurementStopTime with hc | hc
          · exact Or.inl (by rw [b3, hc])
          · exact Or.inr ⟨m, by simp, by rw [b3, hc]⟩
        · exact Or.inr ⟨x, by simp [hx], b3⟩

/-- `AverageMeasurements` never returns an error value. -/
theorem AverageMeasurements_ne_err (now : Time) (ms : List Measurement) (e : String) :
    AverageMeasurements now ms ≠ .error (.err e) := by
  unfold AverageMeasurements
  cases hl : averageLoop { result := zeroLicelFile, startTime := now, stopTime := zeroTime } ms with
  | ok st' => simp
  | error f =>
    intro hf
    simp only [Except.error.injEq] at hf
    exact averageLoop_ne_err ms _ e (by rw [hl, hf])

/-- When every index stays in range, `AverageMeasurements` returns a result;
its start is the earliest of the wall-clock time and the starts of the
measurements, its stop the latest of the zero time and their stops. -/
theorem AverageMeasurements_times (now : Time) (ms : List Measurement)
    (hin : inRange [] ms = true) :
    ∃ r, AverageMeasurements now ms = .ok r ∧
      (r.MeasurementStartTime ≤ now ∧
        (∀ m ∈ ms, r.MeasurementStartTime ≤ m.Data.MeasurementStartTime) ∧
        (r.MeasurementStartTime = now ∨
          ∃ m ∈ ms, r.MeasurementStartTime = m.Data.MeasurementStartTime)) ∧
      (zeroTime ≤ r.MeasurementStopTime ∧
        (∀ m ∈ ms, m.Data.MeasurementStopTime ≤ r.MeasurementStopTime) ∧
        (r.MeasurementStopTime = zeroTime ∨
          ∃ m ∈ ms, r.MeasurementStopTime = m.Data.MeasurementStopTime)) := by
  obtain ⟨st', hl⟩ :=
    averageLoop_returns ms { result := zeroLicelFile, startTime := now, stopTime := zeroTime } hin
  obtain ⟨r, hr, -, hs, he⟩ := AverageMeasurements_of_loop now ms st' hl
  have := averageLoop_times ms _ st' hl
  rw [← hs, ← he] at this
  exact ⟨r, hr, this⟩

/-- When some index leaves its range, `AverageMeasurements` aborts. -/
theorem AverageMeasurements_aborts (now : Time) (ms : List Measurement)
    (hin : inRange [] ms = false) :
    AverageMeasurements now ms = .error .indexOutOfRange := by
  have := averageLoop_aborts ms
    { result := zeroLicelFile, startTime := now, stopTime := zeroTime } hin
  simp [AverageMeasurements, this]

/-! ## An experiment without measurements -/

/-- C3, as stated, fails: on the store with no document, where experiment 7
has no processing result and no measurement, `CreateProcessingTask` returns a
task with no error and persists it; its payload is the zero-valued capture. -/
theorem CreateProcessingTask_no_measurements_persists :
    licelRepository.FindProcessingTask 7 emptyStore = (.ok none, emptyStore) ∧
    licelRepository.FindAllMeasurementsByExpID 7 emptyStore = (.ok [], emptyStore) ∧
    licelService.CreateProcessingTask (NewLicelRepository 1) 50 9 7 emptyStore =
      (.ok (some (NewProcessingTask 9 7 (zeroResult 50))),
        { emptyStore with Processing := [NewProcessingTask 9 7 (zeroResult 50)] }) :=
  ⟨rfl, rfl, rfl⟩

/-- C3, amended: for every experiment ID that has no stored processing result
and for which the store returns zero measurements, no aggregation error
arises: `AverageMeasurements` returns, with no error, the zero-valued capture
(no profile, every count zero, start the wall-clock time of the call, stop
the zero time); `CreateProcessingTask` hands the task with this payload and
an empty `MeasurementIDs` to the store and, when the insert succeeds, returns
the inserted task with no error. -/
theorem CreateProcessingTask_no_measurements {σ : Type} (repo : LicelRepo σ) (now : Time)
    (newID expId : ObjectID) (s s1 s2 s3 : σ) (t : Option ProcessingTask)
    (hfind : repo.FindProcessingTask expId s = (.ok none, s1))
    (hall : repo.FindAllMeasurementsByExpID expId s1 = (.ok [], s2))
    (hins : repo.CreateProcessingTask expId
      { ID := newID, ExperimentID := expId, MeasurementIDs := [],
        AveragedData := zeroResult now } s2 = (.ok t, s3)) :
    AverageMeasurements now [] = .ok (zeroResult now) ∧
      licelService.CreateProcessingTask repo now newID expId s = (.ok t, s3) := by
  have havg : AverageMeasurements now [] = .ok (zeroResult now) := rfl
  refine ⟨havg, ?_⟩
  simp only [licelService.CreateProcessingTask, hfind, hall, havg, NewProcessingTask, hins]

/-- C3, amended, on the store with no document. -/
theorem CreateProcessingTask_no_measurements_witness :
    ((NewLicelRepository 1).FindProcessingTask 7 emptyStore = (.ok none, emptyStore) ∧
      (NewLicelRepository 1).FindAllMeasurementsByExpID 7 emptyStore = (.ok [], emptyStore) ∧
      (NewLicelRepository 1).CreateProcessingTask 7
        { ID := 9, ExperimentID := 7, MeasurementIDs := [], AveragedData := zeroResult 50 }
        emptyStore =
        (.ok (some (NewProcessingTask 9 7 (zeroResult 50))),
          { emptyStore with Processing := [NewProcessingTask 9 7 (zeroResult 50)] })) ∧
    (AverageMeasurements 50 [] = .ok (zeroResult 50) ∧
      licelService.CreateProcessingTask (NewLicelRepository 1) 50 9 7 emptyStore =
        (.ok (some (NewProcessingTask 9 7 (zeroResult 50))),
          { emptyStore with Processing := [NewProcessingTask 9 7 (zeroResult 50)] })) :=
  ⟨⟨rfl, rfl, rfl⟩,
    CreateProcessingTask_no_measurements (NewLicelRepository 1) 50 9 7
      emptyStore emptyStore emptyStore _ _ rfl rfl rfl⟩

/-! ## Session bounds -/

/-- C4: with the wall-clock time 5 at the call and one measurement starting
at 10, the `MeasurementStartTime` of the result is 5, the wall-clock time,
earlier than the start of every input: the result is not the earliest start
among the inputs, and it varies with the wall clock. -/
theorem AverageMeasurements_start_is_wall_clock :
    (∃ r, AverageMeasurements 5 [capture123] = .ok r ∧ r.MeasurementStartTime = 5 ∧
      ∀ m ∈ [capture123], r.MeasurementStartTime < m.Data.MeasurementStartTime) ∧
    (∃ r, AverageMeasurements 50 [capture123] = .ok r ∧ r.MeasurementStartTime = 10) :=
  ⟨⟨_, rfl, rfl, by decide⟩, ⟨_, rfl, rfl⟩⟩

/-- The start of the result in general: on a list on which the call returns
(every index stays in range), the `MeasurementStartTime` of the result is the
earliest of the wall-clock time read at the call and the starts of the
inputs; it is the earliest start among the inputs when one of them starts no
later than that wall-clock time. -/
theorem AverageMeasurements_start (now : Time) (ms : List Measurement)
    (hin : inRange [] ms = true) :
    ∃ r, AverageMeasurements now ms = .ok r ∧
      r.MeasurementStartTime ≤ now ∧
      (∀ m ∈ ms, r.MeasurementStartTime ≤ m.Data.MeasurementStartTime) ∧
      (r.MeasurementStartTime = now ∨
        ∃ m ∈ ms, r.MeasurementStartTime = m.Data.MeasurementStartTime) ∧
      ((∃ m ∈ ms, m.Data.MeasurementStartTime ≤ now) →
        ∃ m ∈ ms, r.MeasurementStartTime = m.Data.MeasurementStartTime) := by
  obtain ⟨r, hr, ⟨h1, h2, h3⟩, -⟩ := AverageMeasurements_times now ms hin
  refine ⟨r, hr, h1, h2, h3, ?_⟩
  rintro ⟨m, hm, hle⟩
  rcases h3 with h3 | h3
  · exact ⟨m, hm, le_antisymm (h2 m hm) (by rw [h3]; exact hle)⟩
  · exact h3

/-- C5, as stated, fails: for one measurement that stops at -5, before the
zero value of `time.Time`, the `MeasurementStopTime` of the result is the zero
time, later than the stop of every input: the result is not the latest stop
among the inputs. -/
theorem AverageMeasurements_stop_is_zero_time :
    ∃ r, AverageMeasurements 50 [captureEarly] = .ok r ∧ r.MeasurementStopTime = zeroTime ∧
      ∀ m ∈ [captureEarly], m.Data.MeasurementStopTime < r.MeasurementStopTime :=
  ⟨_, rfl, rfl, by decide⟩

/-- The stop of the result in general: on a list on which the call returns
(every index stays in range), the `MeasurementStopTime` of the result is the
latest of the zero value of `time.Time` and the stops of the inputs; it is
the latest stop among the inputs when one of them stops no earlier than the
zero time. -/
theorem AverageMeasurements_stop (now : Time) (ms : List Measurement)
    (hin : inRange [] ms = true) :
    ∃ r, AverageMeasurements now ms = .ok r ∧
      zeroTime ≤ r.MeasurementStopTime ∧
      (∀ m ∈ ms, m.Data.MeasurementStopTime ≤ r.MeasurementStopTime) ∧
      (r.MeasurementStopTime = zeroTime ∨
        ∃ m ∈ ms, r.MeasurementStopTime = m.Data.MeasurementStopTime) ∧
      ((∃ m ∈ ms, zeroTime ≤ m.Data.MeasurementStopTime) →
        ∃ m ∈ ms, r.MeasurementStopTime = m.Data.MeasurementStopTime) := by
  obtain ⟨r, hr, -, ⟨h1, h2, h3⟩⟩ := AverageMeasurements_times now ms hin
  refine ⟨r, hr, h1, h2, h3, ?_⟩
  rintro ⟨m, hm, hle⟩
  rcases h3 with h3 | h3
  · exact ⟨m, hm, le_antisymm (by rw [h3]; exact hle) (h2 m hm)⟩
  · exact h3

/-- A result is returned only when every index stays in range. -/
theorem inRange_of_returns (now : Time) (ms : List Measurement) (r : LicelFile)
    (h : AverageMeasurements now ms = .ok r) : inRange [] ms = true := by
  cases hin : inRange [] ms with
  | true => rfl
  | false =>
    rw [AverageMeasurements_aborts now ms hin] at h
    cases h

/-- C5, amended: for every non-empty list of measurements of which at least
one stops no earlier than the zero value of `time.Time`, the
`MeasurementStopTime` of the result of `AverageMeasurements` is the latest
`MeasurementStopTime` among the inputs: it is the stop of one of them and no
input stops later. The call returns a result whenever every index stays in
range. -/
theorem AverageMeasurements_stop_latest (now : Time) (ms : List Measurement) (_hne : ms ≠ [])
    (hz : ∃ m ∈ ms, zeroTime ≤ m.Data.MeasurementStopTime) :
    (inRange [] ms = true → ∃ r, AverageMeasurements now ms = .ok r) ∧
    ∀ r, AverageMeasurements now ms = .ok r →
      (∃ m ∈ ms, r.MeasurementStopTime = m.Data.MeasurementStopTime) ∧
      ∀ m ∈ ms, m.Data.MeasurementStopTime ≤ r.MeasurementStopTime := by
  constructor
  · intro hin
    obtain ⟨r, hr, -⟩ := AverageMeasurements_times now ms hin
    exact ⟨r, hr⟩
  · intro r hr
    obtain ⟨r0, hr0, -, -, h2, h3⟩ :=
      AverageMeasurements_times now ms (inRange_of_returns now ms r hr)
    rw [hr] at hr0
    simp only [Except.ok.injEq] at hr0
    subst hr0
    refine ⟨?_, h2⟩
    rcases h3 with h3 | h3
    · obtain ⟨m, hm, hle⟩ := hz
      exact ⟨m, hm, le_antisymm (by rw [h3]; exact hle) (h2 m hm)⟩
    · exact h3

/-- C5, amended, at captures stopping at 20 and 40: the call returns and the
result stops at 40. -/
theorem AverageMeasurements_stop_latest_witness :
    ([capture123, capture456] ≠ [] ∧
      ∃ m ∈ [capture123, capture456], zeroTime ≤ m.Data.MeasurementStopTime) ∧
    ((inRange [] [capture123, capture456] = true →
        ∃ r, AverageMeasurements 50 [capture123, capture456] = .ok r) ∧
      ∀ r, AverageMeasurements 50 [capture123, capture456] = .ok r →
        (∃ m ∈ [capture123, capture456],
          r.MeasurementStopTime = m.Data.MeasurementStopTime) ∧
        ∀ m ∈ [capture123, capture456],
          m.Data.MeasurementStopTime ≤ r.MeasurementStopTime) ∧
    (∃ r, AverageMeasurements 50 [capture123, capture456] = .ok r ∧
      r.MeasurementStopTime = 40) :=
  ⟨⟨by decide, by decide⟩,
    AverageMeasurements_stop_latest 50 [capture123, capture456] (by decide) (by decide),
    ⟨_, rfl, rfl⟩⟩

/-! ## Measurements of different shapes -/

/-- C6, as stated, fails: the profiles `[1, 2, 3]` and `[4, 5]` of channel 0
differ in length, and `AverageMeasurements` returns a result, not an error;
the shorter profile is added to the leading samples only. -/
theorem AverageMeasurements_shorter_profile_returns :
    shapeOf capture123.Data.Profiles ≠ shapeOf capture45.Data.Profiles ∧
      ∃ r, AverageMeasurements 50 [capture123, capture45] = .ok r ∧
        r.Profiles = [{ NShots := 250, Data := [5, 7, 3] }] :=
  ⟨by decide, _, rfl, rfl⟩

/-- C6, amended: for every list of measurements, also one in which two
measurements differ in the number of channels or in the profile length of a
channel, `AverageMeasurements` never returns an error. When the first
measurement has a channel and every later measurement has at least as many
channels and no channel profile longer than that of the first, it returns a
result of the shape of the first measurement: further channels of later
measurements are left out, and a shorter profile counts as zero past its
last sample. -/
theorem AverageMeasurements_no_shape_check (now : Time) (ms : List Measurement) :
    (∀ e, AverageMeasurements now ms ≠ .error (.err e)) ∧
    (∀ m0 rest, ms = m0 :: rest → m0.Data.Profiles ≠ [] →
      (∀ m ∈ rest, fits (shapeOf m0.Data.Profiles) m.Data.Profiles = true) →
      ∃ r, AverageMeasurements now ms = .ok r ∧
        shapeOf r.Profiles = shapeOf m0.Data.Profiles ∧
        ∀ i j, i < m0.Data.Profiles.length →
          sampleAt r.Profiles i j = (ms.map fun m => sampleAt m.Data.Profiles i j).sum) := by
  refine ⟨AverageMeasurements_ne_err now ms, ?_⟩
  intro m0 rest hms hne hfit
  subst hms
  obtain ⟨r, hr, hs, -, hd⟩ := AverageMeasurements_core now m0 rest hne hfit
  exact ⟨r, hr, hs, hd⟩

/-- C6, amended, at the profiles `[1, 2, 3]` and `[4, 5]`. -/
theorem AverageMeasurements_no_shape_check_witness :
    (capture123.Data.Profiles ≠ [] ∧
      ∀ m ∈ [capture45], fits (shapeOf capture123.Data.Profiles) m.Data.Profiles = true) ∧
    ∃ r, AverageMeasurements 50 [capture123, capture45] = .ok r ∧
      shapeOf r.Profiles = shapeOf capture123.Data.Profiles ∧
      ∀ i j, i < capture123.Data.Profiles.length →
        sampleAt r.Profiles i j =
          ([capture123, capture45].map fun m => sampleAt m.Data.Profiles i j).sum :=
  ⟨⟨by decide, by decide⟩,
    (AverageMeasurements_no_shape_check 50 [capture123, capture45]).2 capture123 [capture45] rfl
      (by decide) (by decide)⟩

/-! ## Lemmas on the repository over the store -/

/-- The lookup by start time and title yields the first stored experiment
with that key, if any, and leaves the store as it is. -/
theorem FindExperimentByTimeAndTitle_eq (startTime : Time) (title : String) (db : Mongo) :
    licelRepository.FindExperimentByTimeAndTitle startTime title db =
      (.ok (db.Experiments.find? (experimentKey startTime title)), db) := by
  have hk : (fun e : Experiment => decide (e.StartTime = startTime) && decide (e.Title = title))
      = experimentKey startTime title := rfl
  unfold licelRepository.FindExperimentByTimeAndTitle FindOne
  rw [hk]
  cases db.Experiments.find? (experimentKey startTime title) <;> rfl

/-- The insert of an experiment with an identifier that no stored experiment
has succeeds and stores it after the others. -/
theorem CreateExperiment_fresh (newID : ObjectID) (startTime : Time) (title comments : String)
    (db : Mongo) (h : ∀ e ∈ db.Experiments, e.ID ≠ newID) :
    licelRepository.CreateExperiment newID startTime title comments db =
      (.ok (some (NewExperiment newID startTime title comments)),
        { db with Experiments :=
          db.Experiments ++ [NewExperiment newID startTime title comments] }) := by
  have hany : (db.Experiments.any fun d =>
      d.ID == (NewExperiment newID startTime title comments).ID) = false := by
    rw [List.any_eq_false]
    intro e he
    simpa [NewExperiment] using h e he
  simp only [licelRepository.CreateExperiment, InsertOne, hany]
  rfl

/-- The lookup of a measurement yields the first stored measurement with that
key, if any, and leaves the store as it is. -/
theorem FindMeasurement_eq (expID : ObjectID) (startTime stopTime : Time) (db : Mongo) :
    licelRepository.FindMeasurement expID startTime stopTime db =
      (.ok (db.Measurements.find? (measurementKey expID startTime stopTime)), db) := by
  have hk : (fun m : Measurement => decide (m.ExperimentID = expID) &&
      decide (m.Data.MeasurementStartTime = startTime) &&
      decide (m.Data.MeasurementStopTime = stopTime)) =
      measurementKey expID startTime stopTime := rfl
  unfold licelRepository.FindMeasurement FindOne
  rw [hk]
  cases db.Measurements.find? (measurementKey expID startTime stopTime) <;> rfl

/-- The insert of a measurement either fails and leaves the store as it is,
or stores the stamped measurement after the others and returns it. -/
theorem CreateMeasurement_cases (expId : ObjectID) (meas : Measurement) (db : Mongo) :
    (∃ f, licelRepository.CreateMeasurement expId meas db = (.error f, db)) ∨
    licelRepository.CreateMeasurement expId meas db =
      (.ok (some { meas with ExperimentID := expId }),
        { db with Measurements := db.Measurements ++ [{ meas with ExperimentID := expId }] }) := by
  cases hany : db.Measurements.any fun d =>
      d.ID == ({ meas with ExperimentID := expId } : Measurement).ID with
  | true =>
    left
    simp only [licelRepository.CreateMeasurement, InsertOne, hany]
    exact ⟨_, rfl⟩
  | false =>
    right
    simp only [licelRepository.CreateMeasurement, InsertOne, hany]
    rfl

/-- The lookup of a processing task yields the first stored task of the
experiment, if any, and leaves the store as it is. -/
theorem FindProcessingTask_eq (expID : ObjectID) (db : Mongo) :
    licelRepository.FindProcessingTask expID db =
      (.ok (db.Processing.find? fun t => decide (t.ExperimentID = expID)), db) := by
  unfold licelRepository.FindProcessingTask FindOne
  cases db.Processing.find? fun t => decide (t.ExperimentID = expID) <;> rfl

/-- A list without an element of the key, extended by one element of the
key, has that element as its first of the key and counts one of them. -/
theorem find_count_append {α : Type} (l : List α) (p : α → Bool) (x : α)
    (hnone : l.find? p = none) (hx : p x = true) :
    (l ++ [x]).find? p = some x ∧ (l ++ [x]).countP p = 1 := by
  have hcount : l.countP p = 0 := by
    rw [List.countP_eq_zero]
    intro a ha
    have := List.find?_eq_none.mp hnone a ha
    simpa using this
  constructor
  · simp [List.find?_append, hnone, hx]
  · simp [List.countP_append, hcount, hx]

/-- A list with an element of the key counts at least one of them. -/
theorem countP_ne_zero_of_find {α : Type} (l : List α) (p : α → Bool) (x : α)
    (h : l.find? p = some x) : l.countP p ≠ 0 := by
  intro h0
  rw [List.countP_eq_zero] at h0
  exact h0 x (List.mem_of_find?_eq_some h) (List.find?_some h)

/-- The lookup of the measurements of an experiment yields the stored
measurements of that experiment, in stored order, and leaves the store as it
is. -/
theorem FindAllMeasurementsByExpID_eq (expID : ObjectID) (db : Mongo) :
    licelRepository.FindAllMeasurementsByExpID expID db =
      (.ok (db.Measurements.filter fun m => decide (m.ExperimentID = expID)), db) := rfl

/-- The insert of a processing task with an identifier that no stored task
has succeeds and stores the stamped task after the others. -/
theorem CreateProcessingTask_fresh (expID : ObjectID) (procTask : ProcessingTask) (db : Mongo)
    (h : ∀ t ∈ db.Processing, t.ID ≠ procTask.ID) :
    licelRepository.CreateProcessingTask expID procTask db =
      (.ok (some { procTask with ExperimentID := expID }),
        { db with Processing := db.Processing ++ [{ procTask with ExperimentID := expID }] }) := by
  have hany : (db.Processing.any fun d =>
      d.ID == ({ procTask with ExperimentID := expID } : ProcessingTask).ID) = false := by
    rw [List.any_eq_false]
    intro t ht
    simpa using h t ht
  simp only [licelRepository.CreateProcessingTask, InsertOne, hany]
  rfl

/-! ## The processing task that is built -/

/-- C7, as stated, fails: on the store that holds one measurement of
experiment 7, `CreateProcessingTask` persists a task for experiment 7 whose
`MeasurementIDs` is empty, so it does not contain the identifier of the
measurement that `FindAllMeasurementsByExpID` returns. -/
theorem CreateProcessingTask_omits_measurement_ids :
    licelRepository.FindProcessingTask 7 storeOne = (.ok none, storeOne) ∧
    licelRepository.FindAllMeasurementsByExpID 7 storeOne = (.ok [capture123], storeOne) ∧
    ∃ t db, licelService.CreateProcessingTask (NewLicelRepository 1) 50 9 7 storeOne =
        (.ok (some t), db) ∧
      db.Processing = [t] ∧ t.ExperimentID = 7 ∧ t.MeasurementIDs = [] ∧
      capture123.ID ∉ t.MeasurementIDs :=
  ⟨rfl, rfl, _, _, rfl, rfl, rfl, rfl, by decide⟩

/-- C7, amended: for every experiment ID with no stored processing result and
at least one stored measurement, when all store calls succeed and the
aggregation of the measurements `ms` returned by `FindAllMeasurementsByExpID`
returns `lf`, the task that `CreateProcessingTask` builds has `ExperimentID`
equal to the given ID, `AveragedData` equal to `lf` and an empty
`MeasurementIDs`. For any repository this is the task handed to its
`CreateProcessingTask`, whose answer is returned; over the store of the
repository, with the new identifier fresh, this task is returned and stored
after the tasks already there. -/
theorem CreateProcessingTask_builds (now : Time) (newID expId : ObjectID)
    (ms : List Measurement) (lf : LicelFile) (_hne : ms ≠ [])
    (havg : AverageMeasurements now ms = .ok lf) :
    (∀ (σ : Type) (repo : LicelRepo σ) (s s1 s2 s3 : σ) (t : Option ProcessingTask),
      repo.FindProcessingTask expId s = (.ok none, s1) →
      repo.FindAllMeasurementsByExpID expId s1 = (.ok ms, s2) →
      repo.CreateProcessingTask expId
        { ID := newID, ExperimentID := expId, MeasurementIDs := [], AveragedData := lf } s2 =
          (.ok t, s3) →
      licelService.CreateProcessingTask repo now newID expId s = (.ok t, s3)) ∧
    (∀ (repoID : ObjectID) (db : Mongo),
      (db.Processing.find? fun t => decide (t.ExperimentID = expId)) = none →
      (db.Measurements.filter fun m => decide (m.ExperimentID = expId)) = ms →
      (∀ t ∈ db.Processing, t.ID ≠ newID) →
      licelService.CreateProcessingTask (NewLicelRepository repoID) now newID expId db =
        (.ok (some
            { ID := newID, ExperimentID := expId, MeasurementIDs := [], AveragedData := lf }),
          { db with Processing := db.Processing ++
            [{ ID := newID, ExperimentID := expId, MeasurementIDs := [],
               AveragedData := lf }] })) := by
  have hgen : ∀ (σ : Type) (repo : LicelRepo σ) (s s1 s2 s3 : σ) (t : Option ProcessingTask),
      repo.FindProcessingTask expId s = (.ok none, s1) →
      repo.FindAllMeasurementsByExpID expId s1 = (.ok ms, s2) →
      repo.CreateProcessingTask expId
        { ID := newID, ExperimentID := expId, MeasurementIDs := [], AveragedData := lf } s2 =
          (.ok t, s3) →
      licelService.CreateProcessingTask repo now newID expId s = (.ok t, s3) := by
    intro σ repo s s1 s2 s3 t hfind hall hins
    simp only [licelService.CreateProcessingTask, hfind, hall, havg, NewProcessingTask, hins]
  refine ⟨hgen, ?_⟩
  intro repoID db hnone hms hfresh
  apply hgen Mongo (NewLicelRepository repoID) db db db
  · simp only [NewLicelRepository, FindProcessingTask_eq, hnone]
  · simp only [NewLicelRepository, FindAllMeasurementsByExpID_eq, hms]
  · simp only [NewLicelRepository]
    exact CreateProcessingTask_fresh expId _ db hfresh

/-- C7, amended, on the store that holds one measurement of experiment 7. -/
theorem CreateProcessingTask_builds_witness :
    ([capture123] ≠ [] ∧ AverageMeasurements 50 [capture123] = .ok capture123.Data ∧
      (storeOne.Processing.find? fun t => decide (t.ExperimentID = 7)) = none ∧
      (storeOne.Measurements.filter fun m => decide (m.ExperimentID = 7)) = [capture123] ∧
      ∀ t ∈ storeOne.Processing, t.ID ≠ 9) ∧
    licelService.CreateProcessingTask (NewLicelRepository 1) 50 9 7 storeOne =
      (.ok (some builtTask), { storeOne with Processing := storeOne.Processing ++ [builtTask] }) :=
  ⟨⟨by decide, rfl, rfl, rfl, by decide⟩,
    (CreateProcessingTask_builds 50 9 7 [capture123] capture123.Data (by decide) rfl).2 1
      storeOne rfl rfl (by decide)⟩

/-! ## Registering an experiment or a measurement twice -/

/-- C8: over the store in which `FindExperimentByTimeAndTitle` yields a stored
experiment of the given start time and title when there is one and
`CreateExperiment` inserts the new experiment under the fresh identifier
`id1`: for every store state, start time, title and comments `c1`, `c2`, the
first `AddExperiment` returns an experiment `e` of that key, the second call
with the same start time and title returns the same `e`, hence the same
identifier, and leaves the store as the first call left it, and exactly one
experiment of that key is stored if none was stored before. -/
theorem AddExperiment_idempotent (db : Mongo) (startTime : Time) (title c1 c2 : String)
    (id1 id2 : ObjectID) (hfresh : ∀ e ∈ db.Experiments, e.ID ≠ id1) :
    ∃ e db1,
      licelService.AddExperiment (NewLicelRepository id1) startTime title c1 db =
        (.ok (some e), db1) ∧
      licelService.AddExperiment (NewLicelRepository id2) startTime title c2 db1 =
        (.ok (some e), db1) ∧
      experimentKey startTime title e = true ∧ e ∈ db1.Experiments ∧
      (db.Experiments.countP (experimentKey startTime title) = 0 →
        db1.Experiments.countP (experimentKey startTime title) = 1) := by
  cases hf : db.Experiments.find? (experimentKey startTime title) with
  | some e =>
    have h1 : ∀ id c, licelService.AddExperiment (NewLicelRepository id) startTime title c db =
        (.ok (some e), db) := by
      intro id c
      simp only [licelService.AddExperiment, NewLicelRepository,
        FindExperimentByTimeAndTitle_eq, hf]
    exact ⟨e, db, h1 id1 c1, h1 id2 c2, List.find?_some hf, List.mem_of_find?_eq_some hf,
      fun h0 => absurd h0 (countP_ne_zero_of_find _ _ _ hf)⟩
  | none =>
    have hkey : experimentKey startTime title (NewExperiment id1 startTime title c1) = true := by
      simp [experimentKey, NewExperiment]
    obtain ⟨hfind, hcount⟩ := find_count_append db.Experiments _ _ hf hkey
    refine ⟨NewExperiment id1 startTime title c1,
      { db with Experiments := db.Experiments ++ [NewExperiment id1 startTime title c1] },
      ?_, ?_, hkey, by simp, fun _ => hcount⟩
    · simp only [licelService.AddExperiment, NewLicelRepository,
        FindExperimentByTimeAndTitle_eq, hf, CreateExperiment_fresh _ _ _ _ _ hfresh]
    · simp only [licelService.AddExperiment, NewLicelRepository,
        FindExperimentByTimeAndTitle_eq, hfind]

/-- C8, on the store that holds an experiment of the same start time and
another title: both calls return the experiment of identifier 1. -/
theorem AddExperiment_idempotent_witness :
    (∀ e ∈ storeSiteB.Experiments, e.ID ≠ 1) ∧
    (∃ e db1,
      licelService.AddExperiment (NewLicelRepository 1) 10 "site-A" "" storeSiteB =
        (.ok (some e), db1) ∧
      licelService.AddExperiment (NewLicelRepository 2) 10 "site-A" "again" db1 =
        (.ok (some e), db1) ∧
      experimentKey 10 "site-A" e = true ∧ e ∈ db1.Experiments ∧
      (storeSiteB.Experiments.countP (experimentKey 10 "site-A") = 0 →
        db1.Experiments.countP (experimentKey 10 "site-A") = 1)) ∧
    (licelService.AddExperiment (NewLicelRepository 1) 10 "site-A" "" storeSiteB).1 =
      .ok (some { ID := 1, StartTime := 10, Title := "site-A", Comments := "" }) :=
  ⟨by decide, AddExperiment_idempotent storeSiteB 10 "site-A" "" "again" 1 2 (by decide), rfl⟩

/-- C9: over the store in which `FindMeasurement` yields a stored measurement
of the given experiment, capture start and capture stop when there is one and
`CreateMeasurement` stamps the measurement with the experiment ID and inserts
it: for every store state, experiment ID and measurements `m1`, `m2` with the
same `MeasurementStartTime` and `MeasurementStopTime`, when the first
`AddMeasurement` returns with no error it returns a measurement `r` of that
key, the second call returns the same `r`, hence the same identifier, and
leaves the store as the first call left it, and exactly one measurement of
that key is stored under that experiment if none was stored before. -/
theorem AddMeasurement_idempotent (db db1 : Mongo) (expId id1 id2 : ObjectID)
    (m1 m2 : Measurement) (r1 : Option Measurement)
    (hstart : m2.Data.MeasurementStartTime = m1.Data.MeasurementStartTime)
    (hstop : m2.Data.MeasurementStopTime = m1.Data.MeasurementStopTime)
    (hfirst : licelService.AddMeasurement (NewLicelRepository id1) expId m1 db = (.ok r1, db1)) :
    ∃ r, r1 = some r ∧
      licelService.AddMeasurement (NewLicelRepository id2) expId m2 db1 = (.ok (some r), db1) ∧
      measurementKey expId m1.Data.MeasurementStartTime m1.Data.MeasurementStopTime r = true ∧
      r ∈ db1.Measurements ∧
      (db.Measurements.countP
          (measurementKey expId m1.Data.MeasurementStartTime m1.Data.MeasurementStopTime) = 0 →
        db1.Measurements.countP
          (measurementKey expId m1.Data.MeasurementStartTime m1.Data.MeasurementStopTime) = 1) := by
  cases hf : db.Measurements.find?
      (measurementKey expId m1.Data.MeasurementStartTime m1.Data.MeasurementStopTime) with
  | some r =>
    simp only [licelService.AddMeasurement, NewLicelRepository, FindMeasurement_eq, hf,
      Prod.mk.injEq, Except.ok.injEq] at hfirst
    obtain ⟨hr, hdb⟩ := hfirst
    subst hdb
    refine ⟨r, hr.symm, ?_, List.find?_some hf, List.mem_of_find?_eq_some hf,
      fun h0 => absurd h0 (countP_ne_zero_of_find _ _ _ hf)⟩
    simp only [licelService.AddMeasurement, NewLicelRepository, FindMeasurement_eq, hstart,
      hstop, hf]
  | none =>
    have hkey : measurementKey expId m1.Data.MeasurementStartTime m1.Data.MeasurementStopTime
        { m1 with ExperimentID := expId } = true := by
      simp [measurementKey]
    obtain ⟨hfind, hcount⟩ := find_count_append db.Measurements _ _ hf hkey
    rcases CreateMeasurement_cases expId m1 db with ⟨f, hc⟩ | hc
    · simp [licelService.AddMeasurement, NewLicelRepository, FindMeasurement_eq, hf, hc]
        at hfirst
    · simp only [licelService.AddMeasurement, NewLicelRepository, FindMeasurement_eq, hf, hc,
        Prod.mk.injEq, Except.ok.injEq] at hfirst
      obtain ⟨hr, hdb⟩ := hfirst
      subst hdb
      refine ⟨{ m1 with ExperimentID := expId }, hr.symm, ?_, hkey, by simp, fun _ => hcount⟩
      simp only [licelService.AddMeasurement, NewLicelRepository, FindMeasurement_eq, hstart,
        hstop, hfind]

/-- C9, on the store with no document, for experiment 7 and two captures of
the window 30 to 40 with different identifiers and profiles: both calls
return the measurement of identifier 2. -/
theorem AddMeasurement_idempotent_witness :
    (capture45.Data.MeasurementStartTime = capture456.Data.MeasurementStartTime ∧
      capture45.Data.MeasurementStopTime = capture456.Data.MeasurementStopTime ∧
      licelService.AddMeasurement (NewLicelRepository 1) 7 capture456 emptyStore =
        (.ok (some capture456), { emptyStore with Measurements := [capture456] })) ∧
    ∃ r, some capture456 = some r ∧
      licelService.AddMeasurement (NewLicelRepository 1) 7 capture45
          { emptyStore with Measurements := [capture456] } =
        (.ok (some r), { emptyStore with Measurements := [capture456] }) ∧
      measurementKey 7 capture456.Data.MeasurementStartTime
        capture456.Data.MeasurementStopTime r = true ∧
      r ∈ ({ emptyStore with Measurements := [capture456] } : Mongo).Measurements ∧
      (emptyStore.Measurements.countP
          (measurementKey 7 capture456.Data.MeasurementStartTime
            capture456.Data.MeasurementStopTime) = 0 →
        ({ emptyStore with Measurements := [capture456] } : Mongo).Measurements.countP
          (measurementKey 7 capture456.Data.MeasurementStartTime
            capture456.Data.MeasurementStopTime) = 1) :=
  ⟨⟨rfl, rfl, rfl⟩,
    AddMeasurement_idempotent emptyStore _ 7 1 1 capture456 capture45 _ rfl rfl rfl⟩

/-! ## A processing result that is already stored -/

/-- C10: for every experiment ID for which `FindProcessingTask` returns a
stored processing result with no error, `CreateProcessingTask` returns that
result with no error, and the state of the store is the one that the lookup
left: no measurement is fetched, nothing is aggregated, nothing is inserted.
Over the store of the repository, where the lookup yields the first stored
result of the experiment, the store after the call is the store before it, so
no second result of the experiment comes to exist. -/
theorem CreateProcessingTask_returns_stored (now : Time) (newID expId : ObjectID) :
    (∀ (σ : Type) (repo : LicelRepo σ) (s s1 : σ) (task : ProcessingTask),
      repo.FindProcessingTask expId s = (.ok (some task), s1) →
      licelService.CreateProcessingTask repo now newID expId s = (.ok (some task), s1)) ∧
    (∀ (repoID : ObjectID) (db : Mongo) (task : ProcessingTask),
      (db.Processing.find? fun t => decide (t.ExperimentID = expId)) = some task →
      licelService.CreateProcessingTask (NewLicelRepository repoID) now newID expId db =
        (.ok (some task), db)) := by
  have hgen : ∀ (σ : Type) (repo : LicelRepo σ) (s s1 : σ) (task : ProcessingTask),
      repo.FindProcessingTask expId s = (.ok (some task), s1) →
      licelService.CreateProcessingTask repo now newID expId s = (.ok (some task), s1) := by
    intro σ repo s s1 task hfind
    simp only [licelService.CreateProcessingTask, hfind]
  refine ⟨hgen, ?_⟩
  intro repoID db task hfind
  apply hgen
  simp only [NewLicelRepository, FindProcessingTask_eq, hfind]

/-- C10, on the store that holds a processing result of experiment 7. -/
theorem CreateProcessingTask_returns_stored_witness :
    ((NewLicelRepository 1).FindProcessingTask 7 storeDone = (.ok (some doneTask), storeDone) ∧
      (storeDone.Processing.find? fun t => decide (t.ExperimentID = 7)) = some doneTask) ∧
    licelService.CreateProcessingTask (NewLicelRepository 1) 50 9 7 storeDone =
      (.ok (some doneTask), storeDone) ∧
    licelService.CreateProcessingTask (NewLicelRepository 1) 50 9 7 storeDone =
      (.ok (some doneTask), storeDone) :=
  ⟨⟨rfl, rfl⟩,
    (CreateProcessingTask_returns_stored 50 9 7).1 Mongo (NewLicelRepository 1) storeDone
      storeDone doneTask rfl,
    (CreateProcessingTask_returns_stored 50 9 7).2 1 storeDone doneTask rfl⟩

/-! ## The order of the measurements -/

/-- On a non-empty list of measurements of one shape, `AverageMeasurements`
returns a result of that shape whose shot counts and samples are the sums
over the measurements. -/
theorem AverageMeasurements_equal_shape (now : Time) (ms : List Measurement)
    (shape : List Nat) (hne : ms ≠ [])
    (hshape : ∀ m ∈ ms, shapeOf m.Data.Profiles = shape) :
    ∃ r, AverageMeasurements now ms = .ok r ∧ shapeOf r.Profiles = shape ∧
      (∀ i, nshotsAt r.Profiles i = (ms.map fun m => nshotsAt m.Data.Profiles i).sum) ∧
      (∀ i j, sampleAt r.Profiles i j =
        (ms.map fun m => sampleAt m.Data.Profiles i j).sum) := by
  cases ms with
  | nil => exact absurd rfl hne
  | cons m0 rest =>
    have h0 : shapeOf m0.Data.Profiles = shape := hshape m0 (by simp)
    by_cases hP : m0.Data.Profiles = []
    · have hs : shape = [] := by rw [← h0, hP]; rfl
      have hall : ∀ m ∈ m0 :: rest, m.Data.Profiles = [] := by
        intro m hm
        have := hshape m hm
        rw [hs] at this
        simpa [shapeOf] using this
      obtain ⟨r, hr, hp⟩ := AverageMeasurements_no_channels now (m0 :: rest) hall
      refine ⟨r, hr, by rw [hp, hs]; rfl, ?_, ?_⟩
      · intro i
        rw [hp, nshotsAt_nil]
        exact (sum_map_eq_zero _ _ (fun m hm => by rw [hall m hm, nshotsAt_nil])).symm
      · intro i j
        rw [hp, sampleAt_nil]
        exact (sum_map_eq_zero _ _ (fun m hm => by rw [hall m hm, sampleAt_nil])).symm
    · obtain ⟨r, hr, hs, hn, hd⟩ := AverageMeasurements_core now m0 rest hP
        (fun m hm => fits_of_shapeOf_eq _ _ (by rw [hshape m (by simp [hm]), h0]))
      have hlen : ∀ m ∈ m0 :: rest, m.Data.Profiles.length = m0.Data.Profiles.length := by
        intro m hm
        have : (shapeOf m.Data.Profiles).length = (shapeOf m0.Data.Profiles).length := by
          rw [hshape m hm, h0]
        simpa [shapeOf_length] using this
      have hr' : r.Profiles.length = m0.Data.Profiles.length := by
        have : (shapeOf r.Profiles).length = (shapeOf m0.Data.Profiles).length := by rw [hs]
        simpa [shapeOf_length] using this
      refine ⟨r, hr, by rw [hs, h0], ?_, ?_⟩
      · intro i
        by_cases hi : i < m0.Data.Profiles.length
        · exact hn i hi
        · rw [nshotsAt_of_length_le _ _ (by omega)]
          exact (sum_map_eq_zero _ _
            (fun m hm => nshotsAt_of_length_le _ _ (by rw [hlen m hm]; omega))).symm
      · intro i j
        by_cases hi : i < m0.Data.Profiles.length
        · exact hd i j hi
        · rw [sampleAt_of_length_le _ _ _ (by omega)]
          exact (sum_map_eq_zero _ _
            (fun m hm => sampleAt_of_length_le _ _ _ (by rw [hlen m hm]; omega))).symm

/-- Two sample arrays of one length with the same sample at every index are
the same array. -/
theorem data_ext (d e : List Int) (hlen : d.length = e.length)
    (h : ∀ j, d.getD j 0 = e.getD j 0) : d = e := by
  induction d generalizing e with
  | nil =>
    cases e with
    | nil => rfl
    | cons y e => simp at hlen
  | cons x d ih =>
    cases e with
    | nil => simp at hlen
    | cons y e =>
      have hx : x = y := by simpa using h 0
      have := ih e (by simpa using hlen) (fun j => by simpa using h (j + 1))
      rw [hx, this]

/-- Two lists of channel profiles of one shape with the same shot count for
every channel and the same sample at every index are the same list. -/
theorem profiles_ext (P Q : List LicelProfile) (hshape : shapeOf P = shapeOf Q)
    (hn : ∀ i, nshotsAt P i = nshotsAt Q i)
    (hd : ∀ i j, sampleAt P i j = sampleAt Q i j) : P = Q := by
  induction P generalizing Q with
  | nil =>
    cases Q with
    | nil => rfl
    | cons q Q => simp [shapeOf] at hshape
  | cons p P ih =>
    cases Q with
    | nil => simp [shapeOf] at hshape
    | cons q Q =>
      simp only [shapeOf, List.map_cons, List.cons.injEq] at hshape
      have hN : p.NShots = q.NShots := by simpa using hn 0
      have hD : p.Data = q.Data := data_ext _ _ hshape.1 (fun j => by simpa using hd 0 j)
      have hrest := ih Q hshape.2 (fun i => by simpa using hn (i + 1))
        (fun i j => by simpa using hd (i + 1) j)
      have hp : p = q := by
        cases p
        cases q
        simp only [LicelProfile.mk.injEq]
        exact ⟨hN, hD⟩
      rw [hp, hrest]

/-- C11, amended: with the samples added in exact arithmetic, for every
non-empty list `ms` of measurements of one shape and every permutation `ms'`
of it, `AverageMeasurements` applied to `ms` and to `ms'`, each call reading
the measurements with the same values and at its own wall-clock time, returns
results with identical `Profiles`: in exact arithmetic the order in which the
measurements are supplied does not affect the aggregated profiles. -/
theorem AverageMeasurements_order_irrelevant (now now' : Time) (ms ms' : List Measurement)
    (shape : List Nat) (hne : ms ≠ [])
    (hshape : ∀ m ∈ ms, shapeOf m.Data.Profiles = shape) (hperm : ms'.Perm ms) :
    ∃ r r', AverageMeasurements now ms = .ok r ∧ AverageMeasurements now' ms' = .ok r' ∧
      r'.Profiles = r.Profiles := by
  have hne' : ms' ≠ [] := by
    intro h
    rw [h] at hperm
    exact hne hperm.symm.eq_nil
  have hshape' : ∀ m ∈ ms', shapeOf m.Data.Profiles = shape :=
    fun m hm => hshape m (hperm.subset hm)
  obtain ⟨r, hr, hs, hn, hd⟩ := AverageMeasurements_equal_shape now ms shape hne hshape
  obtain ⟨r', hr', hs', hn', hd'⟩ :=
    AverageMeasurements_equal_shape now' ms' shape hne' hshape'
  refine ⟨r, r', hr, hr', profiles_ext _ _ (by rw [hs, hs']) ?_ ?_⟩
  · intro i
    rw [hn i, hn' i]
    exact (hperm.map _).sum_eq
  · intro i j
    rw [hd i j, hd' i j]
    exact (hperm.map _).sum_eq

/-- C11, amended, at the captures with profiles `[1, 2, 3]` and `[4, 5, 6]`
supplied in either order, the two calls made at the wall-clock times 50 and 60: both
results have the one profile of 250 shots and samples `[5, 7, 9]`. -/
theorem AverageMeasurements_order_irrelevant_witness :
    ([capture123, capture456] ≠ [] ∧
      (∀ m ∈ [capture123, capture456], shapeOf m.Data.Profiles = [3]) ∧
      [capture456, capture123].Perm [capture123, capture456]) ∧
    (∃ r r', AverageMeasurements 50 [capture123, capture456] = .ok r ∧
      AverageMeasurements 60 [capture456, capture123] = .ok r' ∧
      r'.Profiles = r.Profiles) ∧
    (∃ r', AverageMeasurements 60 [capture456, capture123] = .ok r' ∧
      r'.Profiles = [{ NShots := 250, Data := [5, 7, 9] }]) :=
  ⟨⟨by decide, by decide, List.Perm.swap _ _ _⟩,
    AverageMeasurements_order_irrelevant 50 60 [capture123, capture456]
      [capture456, capture123] [3] (by decide) (by decide) (List.Perm.swap _ _ _),
    ⟨_, rfl, rfl⟩⟩

/-! ## The order of the measurements with rounded sums -/

/-- With exact addition the inner loop is `addData`. -/
theorem addDataWith_exact (r d : List Int) :
    addDataWith (fun x y => x + y) r d = addData r d := by
  induction r generalizing d with
  | nil => cases d <;> rfl
  | cons x r ih =>
    cases d with
    | nil => rfl
    | cons y d => simp only [addDataWith, addData, ih d]

/-- With exact addition the channel loop is `addProfiles`. -/
theorem addProfilesWith_exact (R P : List LicelProfile) :
    addProfilesWith (fun x y => x + y) R P = addProfiles R P := by
  induction R generalizing P with
  | nil => rfl
  | cons r rs ih =>
    cases P with
    | nil => rfl
    | cons p ps => simp only [addProfilesWith, addProfiles, addDataWith_exact, ih ps]

/-- With exact addition an iteration is `averageStep`. -/
theorem averageStepWith_exact (st : AvgState) (m : Measurement) :
    averageStepWith (fun x y => x + y) st m = averageStep st m := by
  simp only [averageStepWith, averageStep, addProfilesWith_exact]

/-- With exact addition the loop is `averageLoop`. -/
theorem averageLoopWith_exact (ms : List Measurement) (st : AvgState) :
    averageLoopWith (fun x y => x + y) st ms = averageLoop st ms := by
  induction ms generalizing st with
  | nil => rfl
  | cons m ms ih =>
    simp only [averageLoopWith, averageLoop, averageStepWith_exact]
    cases averageStep st m with
    | ok st' => exact ih st'
    | error f => rfl

/-- With exact addition of the samples, the function with the addition as a
parameter is `AverageMeasurements`. -/
theorem AverageMeasurementsWith_exact (now : Time) (ms : List Measurement) :
    AverageMeasurementsWith (fun x y => x + y) now ms = AverageMeasurements now ms := by
  simp only [AverageMeasurementsWith, AverageMeasurements, averageLoopWith_exact]

/-- An integer below `2 ^ 53` in magnitude is a `float64` and is not
rounded. -/
theorem roundFloat64_of_lt (n : Int) (h : n.natAbs < 2 ^ 53) : roundFloat64 n = n := by
  have he : excessBits 1024 n.natAbs = 0 := by
    rw [show (1024 : Nat) = 1023 + 1 from rfl, excessBits, if_pos h]
  simp only [roundFloat64, he, pow_zero, Nat.div_one, Nat.mod_one, Nat.mul_zero, Nat.mul_one]
  simp [Int.sign_mul_abs]

/-- A sum below `2 ^ 53` in magnitude is exact. -/
theorem addFloat64_of_lt (x y : Int) (h : (x + y).natAbs < 2 ^ 53) :
    addFloat64 x y = x + y :=
  roundFloat64_of_lt (x + y) h

/-- The sum `10 ^ 16 + 1` lies halfway between two neighbouring `float64`
and rounds to the even one, `10 ^ 16`; the neighbours of `2 ^ 53` show the
same rule. -/
theorem addFloat64_rounds :
    addFloat64 10000000000000000 1 = 10000000000000000 ∧
    addFloat64 (2 ^ 53) 1 = 2 ^ 53 ∧ addFloat64 (2 ^ 53) 2 = 2 ^ 53 + 2 ∧
    addFloat64 (2 ^ 53) 3 = 2 ^ 53 + 4 ∧ addFloat64 (-(2 ^ 53)) (-3) = -(2 ^ 53 + 4) := by
  decide

/-- C11, as stated, fails: with `float64` samples the sums are rounded and
taken in input order. Three measurements of one shape with the samples
`10 ^ 16`, `1` and `-10 ^ 16` give the aggregated sample `0` in this order,
since `10 ^ 16 + 1` rounds to `10 ^ 16`, and the aggregated sample `1` when
the last two are exchanged: the aggregated profiles of a list and of a
permutation of it differ. -/
theorem AverageMeasurements_float64_order_matters :
    (∀ m ∈ [captureBig, captureUnit, captureNegBig], shapeOf m.Data.Profiles = [1]) ∧
    [captureBig, captureNegBig, captureUnit].Perm [captureBig, captureUnit, captureNegBig] ∧
    ∃ r r',
      AverageMeasurementsWith addFloat64 50 [captureBig, captureUnit, captureNegBig] = .ok r ∧
      AverageMeasurementsWith addFloat64 50 [captureBig, captureNegBig, captureUnit] = .ok r' ∧
      r.Profiles = [{ NShots := 370, Data := [0] }] ∧
      r'.Profiles = [{ NShots := 370, Data := [1] }] ∧
      r'.Profiles ≠ r.Profiles :=
  ⟨by decide, (List.Perm.swap _ _ _).cons _, _, _, rfl, rfl, rfl, rfl, by decide⟩

end Lidar
